import Mathlib

/-!
# ss-cloud-badge: a verification development of `main.go`

The program locates one ScoutSuite report under `scans/`, loads it, keeps the
findings whose level is `"danger"` and pages through them from the terminal.

The embedding is shallow.  Effects of the Go program are made explicit:

* every function that prints returns the list of strings it wrote to standard
  output, in order;
* a Go `panic` is a constructor of the result type;
* the operating system and the libraries the program calls (the directory walk,
  `ioutil.ReadFile`, `encoding/json`, the HTTP client, the keyboard) are
  parameters collected in `World`; for the round trip of the `p` output alone,
  `encoding/json` is modelled on the `Finding` schema;
* a Go `map` is the list of its entries in the order one `range` loop visits
  them; every theorem about a map holds for every such order;
* the Go type `int` is `Int` with two's-complement wrap-around at 64 bits
  where the program does arithmetic on it.
-/

namespace SsCloudBadge

/-! ## Data model (`main.go`, lines 16-62) -/

/-- The struct `Compliance`. -/
structure Compliance where
  Name : String
  Reference : String
  Version : String
deriving DecidableEq, Repr

/-- The struct `Finding`.  A Go slice is `none` when it is the nil slice and
`some xs` otherwise; the pointer `*[]Compliance` is `none` when it is nil and
`some xs` when it points to the slice `xs`. -/
structure Finding where
  CheckedItems : Int
  Compliance : Option (List Compliance)
  DashboardName : String
  Description : String
  DisplayPath : String
  FlaggedItems : Int
  Items : Option (List String)
  Level : String
  Path : String
  Rationale : String
  References : Option (List String)
  Remediation : String
  Service : String
deriving DecidableEq, Repr

/-- The struct `Service`: the map `Findings`, as the list of its entries. -/
structure Service where
  Findings : List (String × Finding)
deriving DecidableEq, Repr

/-- The struct `ScoutSuiteReport`: the map `Services`, as the list of its
entries. -/
structure ScoutSuiteReport where
  Services : List (String × Service)
deriving DecidableEq, Repr

/-- One element of `Response.Choices`. -/
structure Choice where
  Text : String
deriving DecidableEq, Repr

/-- The struct `Response`. -/
structure Response where
  Choices : List Choice
deriving DecidableEq, Repr

/-! ## Effects -/

/-- Why the program panicked: `panic(err)` with the error's message, or one of
the two run-time faults of indexing and slicing. -/
inductive Panic where
  | err (message : String)
  | sliceBounds (low : Int) (length : Nat)
  | indexOutOfRange (index : Int) (length : Nat)
deriving DecidableEq, Repr

/-- How a call ends. -/
inductive Outcome (α : Type) where
  | returned (value : α)
  | panicked (cause : Panic)
deriving DecidableEq, Repr

/-- What the program does to the outside, in order: a write to standard
output, `ioutil.ReadFile` of a path, a POST of a question to the completions
endpoint. -/
inductive Event where
  | print (text : String)
  | readFile (path : String)
  | post (question : String)
deriving DecidableEq, Repr

/-- One call `filepath.Walk` makes to its callback: the path, `info.Name()`,
`info.IsDir()` and the error passed in. -/
structure WalkEntry where
  path : String
  name : String
  isDir : Bool
  err : Option String
deriving DecidableEq, Repr

/-- The environment of one run: the calls `filepath.Walk("scans", ...)` makes,
in order; `filepath.Match`; `ioutil.ReadFile`; `json.Unmarshal` into a
`ScoutSuiteReport` and into a `Response`; `json.MarshalIndent` of a `Finding`
with indent `"   "`; the POST to the completions endpoint (given the key and
the question), answering with the body; `os.Getenv("OPENAI_API_KEY")`; and
the error of `keyboard.Open()`, `none` for Go `nil`. -/
structure World where
  walkEntries : List WalkEntry
  fileMatch : String → String → Except String Bool
  readFile : String → Except String (List Nat)
  unmarshalReport : List Nat → Except String ScoutSuiteReport
  unmarshalResponse : List Nat → Except String Response
  marshalIndent : Finding → Except String String
  post : String → String → Except String (List Nat)
  apiKey : String
  keyboardOpen : Option String

/-! ## Report locator (`findReportFileName`, lines 64-103) -/

def reportPattern : String := "scoutsuite_results_aws-*.js"

/-- Go `strings.HasSuffix`. -/
def hasSuffix (s suffix : String) : Bool :=
  suffix.data.isSuffixOf s.data

/-- Go `strings.Join`. -/
def stringsJoin : List String → String → String
  | [], _ => ""
  | [s], _ => s
  | s :: t :: rest, sep => s ++ sep ++ stringsJoin (t :: rest) sep

/-- The callback given to `filepath.Walk` (lines 69-87), on one entry: the
output it prints and either the error it returns or the new `foundFiles`. -/
def walkFn (fileMatch : String → String → Except String Bool) (foundFiles : List String)
    (entry : WalkEntry) : List Event × Except String (List String) :=
  match entry.err with
  | some err => ([Event.print ("Error accessing file or directory: " ++ err ++ "\n")], .error err)
  | none =>
    if !entry.isDir && hasSuffix entry.name ".js" then
      match fileMatch reportPattern entry.name with
      | .error err => ([], .error err)
      | .ok matchedFile => ([], .ok (if matchedFile then foundFiles ++ [entry.path] else foundFiles))
    else ([], .ok foundFiles)

/-- The walk: the callback on each entry in turn; the first error it returns
stops the walk and is the walk's error. -/
def walk (fileMatch : String → String → Except String Bool) :
    List WalkEntry → List String → List Event × Except String (List String)
  | [], foundFiles => ([], .ok foundFiles)
  | entry :: rest, foundFiles =>
    match walkFn fileMatch foundFiles entry with
    | (out, .error err) => (out, .error err)
    | (out, .ok foundFiles') =>
      let r := walk fileMatch rest foundFiles'
      (out ++ r.1, r.2)

/-- Lines 93-102: the pair `(error, string)` returned for the collected
`foundFiles`; the error is `none` for Go `nil`. -/
def findReportFileNameOf (foundFiles : List String) : Option String × String :=
  if foundFiles.length = 0 then
    (some "no files found", "")
  else if foundFiles.length > 1 then
    let allFileNames := stringsJoin foundFiles ", "
    (some ("found too many files. Expected one: " ++ allFileNames), "")
  else
    (none, foundFiles.headD "")

/-- The function `findReportFileName`. -/
def findReportFileName (w : World) : List Event × Outcome (Option String × String) :=
  match walk w.fileMatch w.walkEntries [] with
  | (out, .error err) => (out, .panicked (.err err))
  | (out, .ok foundFiles) => (out, .returned (findReportFileNameOf foundFiles))

/-! ## Report loader (`loadFindings`, lines 105-140) -/

/-- Go `bytes.Index(s, sep)`, counting from `i`: the index of the first
instance of `sep`, or -1. -/
def bytesIndexFrom (sep : List Nat) : List Nat → Nat → Int
  | [], i => if sep.isPrefixOf [] then (i : Int) else -1
  | b :: rest, i => if sep.isPrefixOf (b :: rest) then (i : Int) else bytesIndexFrom sep rest (i + 1)

/-- Go `bytes.Index`. -/
def bytesIndex (s sep : List Nat) : Int :=
  bytesIndexFrom sep s 0

/-- The Go slice expression `s[low:]`: a run-time panic unless
`0 <= low <= len(s)`. -/
def sliceFrom (s : List Nat) (low : Int) : Except Panic (List Nat) :=
  if 0 ≤ low ∧ low ≤ (s.length : Int) then .ok (s.drop low.toNat)
  else .error (.sliceBounds low s.length)

/-- The byte `{`. -/
def openBrace : Nat := 123

/-- Line 120: `reportBytes[bytes.Index(reportBytes, []byte("{")):]`. -/
def stripPrefix (reportBytes : List Nat) : Except Panic (List Nat) :=
  sliceFrom reportBytes (bytesIndex reportBytes [openBrace])

/-! ## The filter of `loadFindings` (lines 130-139) -/

/-- The inner loop `for _, finding := range service.Findings`: appends the
finding to `dangerFindings` when its level is `"danger"`. -/
def collectService (dangerFindings : List Finding) (service : Service) : List Finding :=
  service.Findings.foldl
    (fun acc finding => if finding.2.Level = "danger" then acc ++ [finding.2] else acc)
    dangerFindings

/-- The loop nest of lines 130-137, started from the nil slice. -/
def dangerFindingsOf (report : ScoutSuiteReport) : List Finding :=
  report.Services.foldl (fun acc service => collectService acc service.2) []

/-- Every finding of the report, service after service, in the order the two
loops visit them. -/
def allFindings (report : ScoutSuiteReport) : List Finding :=
  (report.Services.map (fun service => service.2.Findings.map Prod.snd)).flatten

/-- The number of danger-level findings of one service. -/
def dangerCount (service : Service) : Nat :=
  (service.Findings.filter (fun finding => finding.2.Level = "danger")).length

def sampleFinding (level description : String) : Finding :=
  { CheckedItems := 4, Compliance := none, DashboardName := "Buckets",
    Description := description, DisplayPath := "", FlaggedItems := 1,
    Items := some ["a"], Level := level, Path := "s3.buckets.id", Rationale := "",
    References := none, Remediation := "", Service := "S3" }

/-- Three services, each with one `"danger"` and one `"info"` finding. -/
def threeServices : ScoutSuiteReport :=
  { Services :=
      [ ("ec2", { Findings := [("a", sampleFinding "danger" "open port"),
                               ("b", sampleFinding "info" "tagging")] }),
        ("iam", { Findings := [("c", sampleFinding "info" "unused role"),
                               ("d", sampleFinding "danger" "root key")] }),
        ("s3", { Findings := [("e", sampleFinding "danger" "public bucket"),
                              ("f", sampleFinding "info" "versioning")] }) ] }

/-- Lines 122-139: parse the stripped bytes and keep the danger findings. -/
def parseAndFilter (unmarshalReport : List Nat → Except String ScoutSuiteReport)
    (reportBytes : List Nat) : List Event × Outcome (List Finding) :=
  match unmarshalReport reportBytes with
  | .error err => ([Event.print "Error unmarshalling json\n"], .panicked (.err err))
  | .ok report => ([], .returned (dangerFindingsOf report))

/-- Lines 119-139: what `loadFindings` does with the bytes it read. -/
def loadFindingsFrom (unmarshalReport : List Nat → Except String ScoutSuiteReport)
    (reportBytes : List Nat) : List Event × Outcome (List Finding) :=
  match stripPrefix reportBytes with
  | .error cause => ([], .panicked cause)
  | .ok stripped => parseAndFilter unmarshalReport stripped

/-- The function `loadFindings`. -/
def loadFindings (w : World) : List Event × Outcome (List Finding) :=
  match findReportFileName w with
  | (out, .panicked cause) => (out, .panicked cause)
  | (out, .returned (err, reportFile)) =>
    let out1 := out ++ (match err with
                        | some e => [Event.print e]
                        | none => [])
      ++ [Event.print ("report name: " ++ reportFile ++ "\n"), Event.readFile reportFile]
    match w.readFile reportFile with
    | .error e => (out1, .panicked (.err e))
    | .ok reportBytes =>
      let r := loadFindingsFrom w.unmarshalReport reportBytes
      (out1 ++ r.1, r.2)

/-! ## Advisory client (`askQuestion`, lines 159-214) -/

/-- Go `unicode.IsSpace`: the runes with the Unicode property White_Space. -/
def isSpace (r : Char) : Bool :=
  let c := r.toNat
  (9 ≤ c && c ≤ 13) || c == 32 || c == 0x85 || c == 0xA0 || c == 0x1680
    || (0x2000 ≤ c && c ≤ 0x200A) || c == 0x2028 || c == 0x2029 || c == 0x202F
    || c == 0x205F || c == 0x3000

/-- Go `strings.TrimSpace`, on a string of valid UTF-8: the string without
its leading and its trailing runs of white space. -/
def trimSpace (s : String) : String :=
  String.mk ((s.data.dropWhile isSpace).rdropWhile isSpace)

/-- Lines 200-207 without the newline `fmt.Println` appends: `Println` puts
one space between its two operands. -/
def answerLine (response : Response) : String :=
  if response.Choices.length > 0 then
    let answer := (response.Choices.headD { Text := "" }).Text
    let answer := trimSpace answer
    "Answer:" ++ " " ++ answer
  else
    "No answer found"

/-- The function `askQuestion`: the events it causes, in order. -/
def askQuestion (w : World) (question : String) : List Event :=
  List.replicate 4 (Event.print "Asking now!\n") ++ [Event.post question] ++
    match w.post w.apiKey question with
    | .error err => [Event.print ("Error sending the request: " ++ err ++ "\n")]
    | .ok body =>
      match w.unmarshalResponse body with
      | .error err => [Event.print ("Error parsing the response: " ++ err ++ "\n")]
      | .ok response =>
        [Event.print (answerLine response ++ "\n")]
          ++ List.replicate 6 (Event.print "End of question\n")

/-! ## Interactive navigator (`printFinding`, `printFindingAsString`, `main`) -/

/-- The largest value of the Go type `int` (64 bits). -/
def maxInt : Int := 9223372036854775807

/-- Arithmetic on the Go type `int` wraps around at 64 bits. -/
def wrapInt (x : Int) : Int :=
  (x + 9223372036854775808) % 18446744073709551616 - 9223372036854775808

/-- The index expression `findings[index]`: a run-time panic unless
`0 <= index < len(findings)`. -/
def indexFinding (findings : List Finding) (index : Int) : Except Panic Finding :=
  if 0 ≤ index ∧ index < (findings.length : Int) then
    match findings.get? index.toNat with
    | some f => .ok f
    | none => .error (.indexOutOfRange index findings.length)
  else .error (.indexOutOfRange index findings.length)

/-- The function `printFinding` (lines 142-148). -/
def printFinding (index total : Int) (findings : List Finding) : List Event × Outcome Unit :=
  let clear := [Event.print "\x1b[2K", Event.print "\x1b[2A", Event.print "\x1b[2K"]
  match indexFinding findings index with
  | .error cause => (clear, .panicked cause)
  | .ok f =>
    (clear ++ [Event.print (f.Description ++ " (" ++ toString (wrapInt (index + 1)) ++ " of "
                  ++ toString total ++ ")\n"),
               Event.print "[j] for next, [k] for previous, [p] for info, [d] for devops, [q] to quit\n"],
     .returned ())

/-- The function `printFindingAsString` (lines 150-157). -/
def printFindingAsString (w : World) (f : Finding) : List Event × Outcome String :=
  match w.marshalIndent f with
  | .error err => ([Event.print err], .panicked (.err err))
  | .ok finding => ([], .returned finding)

/-- One result of `keyboard.GetKey()`: the rune and the error, `none` for Go
`nil` (the key code is not used). -/
structure KeyRead where
  char : Char
  err : Option String
deriving DecidableEq, Repr

/-- Where the loop of `main` stands: about to read the next key with the
given `currentIndex`, returned from `main`, or panicked. -/
inductive LoopState where
  | running (currentIndex : Int)
  | exited
  | panicked (cause : Panic)
deriving DecidableEq, Repr

/-- Line 263: the render that ends an iteration of the loop. -/
def render (out : List Event) (currentIndex total : Int) (findings : List Finding) :
    List Event × LoopState :=
  match printFinding currentIndex total findings with
  | (out1, .panicked cause) => (out ++ out1, .panicked cause)
  | (out1, .returned _) => (out ++ out1, .running currentIndex)

/-- The text `d` asks about (line 255). -/
def questionPrefix : String :=
  "I got the following report from scoute suite... can you please write me a short step by step tutorial for fixing in my aws account: "

/-- One iteration of the loop of `main` (lines 236-263) on one result of
`keyboard.GetKey()`. -/
def step (w : World) (findings : List Finding) (total currentIndex : Int) (key : KeyRead) :
    List Event × LoopState :=
  match key.err with
  | some err => ([], .panicked (.err err))
  | none =>
    if key.char = 'j' then
      let currentIndex := wrapInt (currentIndex + 1)
      let currentIndex := if currentIndex ≥ total then wrapInt (total - 1) else currentIndex
      render [] currentIndex total findings
    else if key.char = 'k' then
      let currentIndex := wrapInt (currentIndex - 1)
      let currentIndex := if currentIndex < 0 then 0 else currentIndex
      render [] currentIndex total findings
    else if key.char = 'p' then
      match indexFinding findings currentIndex with
      | .error cause => ([], .panicked cause)
      | .ok f =>
        match printFindingAsString w f with
        | (out, .panicked cause) => (out, .panicked cause)
        | (out, .returned text) =>
          render (out ++ [Event.print (text ++ "\n")]) currentIndex total findings
    else if key.char = 'd' then
      match indexFinding findings currentIndex with
      | .error cause => ([], .panicked cause)
      | .ok f =>
        match printFindingAsString w f with
        | (out, .panicked cause) => (out, .panicked cause)
        | (out, .returned text) =>
          render (out ++ askQuestion w (questionPrefix ++ text)) currentIndex total findings
    else if key.char = 'q' then
      ([], .exited)
    else
      ([], .running currentIndex)

/-- The loop of `main` on the results of the successive `keyboard.GetKey()`
calls: it stops reading once the program has returned or panicked. -/
def mainLoop (w : World) (findings : List Finding) (total : Int) :
    LoopState → List KeyRead → List Event × LoopState
  | .running currentIndex, key :: rest =>
    let r := step w findings total currentIndex key
    let r2 := mainLoop w findings total r.2 rest
    (r.1 ++ r2.1, r2.2)
  | state, _ => ([], state)

/-- The function `main` on the keys read: the events and the final state. -/
def main (w : World) (keys : List KeyRead) : List Event × LoopState :=
  if w.apiKey = "" then
    ([Event.print "OPENAI_API_KEY environment variable is required\n"], .exited)
  else
    match loadFindings w with
    | (out, .panicked cause) => (out, .panicked cause)
    | (out, .returned findings) =>
      match w.keyboardOpen with
      | some err => (out ++ [Event.print (err ++ "\n")], .panicked (.err err))
      | none =>
        let currentIndex : Int := 0
        let total : Int := findings.length
        match render out currentIndex total findings with
        | (out1, .running _) =>
          let r := mainLoop w findings total (.running currentIndex) keys
          (out1 ++ r.1, r.2)
        | (out1, state) => (out1, state)

/-! ## `encoding/json` on the `Finding` schema

`printFindingAsString` is `json.MarshalIndent(f, "", "   ")`, and reading its
output back is `json.Unmarshal` into a fresh `Finding`.  Both are library
functions; this section models them at the level of Unicode text.

* JSON text is a list of runes.  The strings of a loaded `Finding` were
  produced by `json.Unmarshal`, which replaces invalid UTF-8 by U+FFFD, so
  they are valid UTF-8, and the encoder writes valid UTF-8.
* `Marshal` writes the fields of a struct in declaration order under their
  tag names; a nil pointer and a nil slice are written `null`; `Indent` puts
  every element of a non-empty array or object on a line of its own.
* `Unmarshal` first checks the whole text against the JSON grammar, then
  stores each member of the object in the field whose name matches its key,
  ignoring the case of letters, and skips the other members; `null` leaves a
  string or integer field as it is and sets a pointer or slice to nil.
-/

mutual
/-- A JSON document.  A number keeps its literal. -/
inductive JSON where
  | null
  | bool (b : Bool)
  | number (literal : List Char)
  | string (s : List Char)
  | array (elems : JSONList)
  | object (members : JSONMembers)
/-- The elements of a JSON array. -/
inductive JSONList where
  | nil
  | cons (head : JSON) (tail : JSONList)
/-- The members of a JSON object, in the order of the text. -/
inductive JSONMembers where
  | nil
  | cons (key : List Char) (value : JSON) (tail : JSONMembers)
end

/-- The double quote. -/
def quoteChar : Char := '"'

/-- The backslash. -/
def backslash : Char := '\\'

/-- The opening brace. -/
def openBraceChar : Char := '{'

/-- The closing brace. -/
def closeBraceChar : Char := '}'

/-! ### Encoder -/

/-- The digit of `n < 16` in Go `hex = "0123456789abcdef"`. -/
def hexDigit (n : Nat) : Char :=
  ['0', '1', '2', '3', '4', '5', '6', '7', '8', '9', 'a', 'b', 'c', 'd', 'e', 'f'].getD n '0'

/-- How the encoder writes one rune of a string, with HTML escaping on (the
default of `Marshal`).  Go 1.22 and later write backspace and form feed as
`\b` and `\f` (`shortEscapes`), earlier versions as `\u0008` and `\u000c`. -/
def escapeRune (shortEscapes : Bool) (c : Char) : List Char :=
  let n := c.toNat
  if n = 92 ∨ n = 34 then [backslash, c]
  else if n = 10 then [backslash, 'n']
  else if n = 13 then [backslash, 'r']
  else if n = 9 then [backslash, 't']
  else if shortEscapes = true ∧ n = 8 then [backslash, 'b']
  else if shortEscapes = true ∧ n = 12 then [backslash, 'f']
  else if n < 32 ∨ n = 60 ∨ n = 62 ∨ n = 38 then
    [backslash, 'u', '0', '0', hexDigit (n / 16), hexDigit (n % 16)]
  else if n = 0x2028 ∨ n = 0x2029 then
    [backslash, 'u', '2', '0', '2', hexDigit (n % 16)]
  else [c]

def escapeString (shortEscapes : Bool) : List Char → List Char
  | [] => []
  | c :: rest => escapeRune shortEscapes c ++ escapeString shortEscapes rest

/-- A JSON string literal. -/
def encodeString (shortEscapes : Bool) (s : List Char) : List Char :=
  quoteChar :: (escapeString shortEscapes s ++ [quoteChar])

/-- The decimal digits of `n`, most significant first, in front of `acc`
(the loop of `strconv.FormatInt`, base 10). -/
def formatDigits : Nat → Nat → List Char → List Char
  | 0, _, acc => acc
  | fuel + 1, n, acc =>
    if n < 10 then hexDigit n :: acc
    else formatDigits fuel (n / 10) (hexDigit (n % 10) :: acc)

def formatNat (n : Nat) : List Char :=
  formatDigits (n + 1) n []

/-- Go `strconv.FormatInt(i, 10)`. -/
def formatInt (i : Int) : List Char :=
  if i < 0 then '-' :: formatNat i.natAbs else formatNat i.natAbs

/-- A line break of `Indent` at nesting `depth`, with prefix `""` and indent
`"   "`. -/
def newline (depth : Nat) : List Char :=
  '\n' :: List.replicate (3 * depth) ' '

mutual
/-- The text `MarshalIndent` writes for a document at nesting `depth`. -/
def renderJSON (se : Bool) : JSON → Nat → List Char
  | .null, _ => ['n', 'u', 'l', 'l']
  | .bool true, _ => ['t', 'r', 'u', 'e']
  | .bool false, _ => ['f', 'a', 'l', 's', 'e']
  | .number literal, _ => literal
  | .string s, _ => encodeString se s
  | .array .nil, _ => ['[', ']']
  | .array (.cons e es), d =>
    '[' :: (newline (d + 1) ++ (renderJSON se e (d + 1) ++ (renderElems se es (d + 1)
      ++ (newline d ++ [']']))))
  | .object .nil, _ => [openBraceChar, closeBraceChar]
  | .object (.cons k v ms), d =>
    openBraceChar :: (newline (d + 1) ++ (encodeString se k ++ (':' :: ' ' :: (renderJSON se v (d + 1)
      ++ (renderMembers se ms (d + 1) ++ (newline d ++ [closeBraceChar]))))))
/-- The elements after the first, each behind a comma and a line break. -/
def renderElems (se : Bool) : JSONList → Nat → List Char
  | .nil, _ => []
  | .cons e es, d => ',' :: (newline d ++ (renderJSON se e d ++ renderElems se es d))
/-- The members after the first. -/
def renderMembers (se : Bool) : JSONMembers → Nat → List Char
  | .nil, _ => []
  | .cons k v ms, d =>
    ',' :: (newline d ++ (encodeString se k ++ (':' :: ' ' :: (renderJSON se v d
      ++ renderMembers se ms d))))
end

def stringsToJSON : List String → JSONList
  | [] => .nil
  | s :: rest => .cons (.string s.data) (stringsToJSON rest)

def stringSliceToJSON : Option (List String) → JSON
  | none => .null
  | some xs => .array (stringsToJSON xs)

def complianceToJSON (c : Compliance) : JSON :=
  .object (.cons "name".data (.string c.Name.data)
    (.cons "reference".data (.string c.Reference.data)
    (.cons "version".data (.string c.Version.data) .nil)))

def compliancesToJSON : List Compliance → JSONList
  | [] => .nil
  | c :: rest => .cons (complianceToJSON c) (compliancesToJSON rest)

/-- The document `Marshal` builds for a `Finding`: its thirteen fields in
declaration order under their tag names. -/
def findingToJSON (f : Finding) : JSON :=
  .object (.cons "checked_items".data (.number (formatInt f.CheckedItems))
    (.cons "compliance".data
      (match f.Compliance with
       | none => .null
       | some cs => .array (compliancesToJSON cs))
    (.cons "dashboard_name".data (.string f.DashboardName.data)
    (.cons "description".data (.string f.Description.data)
    (.cons "display_path".data (.string f.DisplayPath.data)
    (.cons "flagged_items".data (.number (formatInt f.FlaggedItems))
    (.cons "items".data (stringSliceToJSON f.Items)
    (.cons "level".data (.string f.Level.data)
    (.cons "path".data (.string f.Path.data)
    (.cons "rationale".data (.string f.Rationale.data)
    (.cons "references".data (stringSliceToJSON f.References)
    (.cons "remediation".data (.string f.Remediation.data)
    (.cons "service".data (.string f.Service.data) .nil)))))))))))))

/-- Modelled from the spec: `json.MarshalIndent(f, "", "   ")` on a `Finding`
(the one call `printFindingAsString` makes) is Go library code, not in the
repository's sources; the spec calls its output "the full current Finding as
indented JSON" over the thirteen fields of its section 6. -/
def goMarshalIndent (se : Bool) (f : Finding) : List Char :=
  renderJSON se (findingToJSON f) 0

/-! ### Decoder: the JSON grammar -/

/-- JSON white space: space, tab, carriage return, line feed. -/
def isWs (c : Char) : Bool :=
  c = ' ' || c = '\t' || c = '\r' || c = '\n'

def skipWs (s : List Char) : List Char :=
  s.dropWhile isWs

def isDigit (c : Char) : Bool :=
  48 ≤ c.toNat && c.toNat ≤ 57

/-- The value of a hexadecimal digit. -/
def hexVal (c : Char) : Option Nat :=
  let n := c.toNat
  if 48 ≤ n ∧ n ≤ 57 then some (n - 48)
  else if 97 ≤ n ∧ n ≤ 102 then some (n - 87)
  else if 65 ≤ n ∧ n ≤ 70 then some (n - 55)
  else none

/-- The value of four hexadecimal digits (Go `getu4` past `\u`). -/
def hex4 (a b c d : Char) : Option Nat :=
  match hexVal a, hexVal b, hexVal c, hexVal d with
  | some x, some y, some z, some w => some (((x * 16 + y) * 16 + z) * 16 + w)
  | _, _, _, _ => none

/-- The rune of a one-letter escape. -/
def simpleEscape (e : Char) : Option Char :=
  if e = quoteChar then some quoteChar
  else if e = backslash then some backslash
  else if e = '/' then some '/'
  else if e = 'b' then some '\x08'
  else if e = 'f' then some '\x0c'
  else if e = 'n' then some '\n'
  else if e = 'r' then some '\r'
  else if e = 't' then some '\t'
  else none

/-- The Unicode replacement character U+FFFD. -/
def replacementChar : Char := '\uFFFD'

/-- The low surrogate written as a `\u` escape at the head of the text, paired
with the high surrogate `r` (Go `utf16.DecodeRune`); `none` when the text does
not start with such an escape or `r` is not a high surrogate. -/
def surrogateAhead (r : Nat) (t : List Char) : Option Char :=
  match t with
  | b :: u :: k1 :: k2 :: k3 :: k4 :: _ =>
    match (if b = backslash ∧ u = 'u' then hex4 k1 k2 k3 k4 else none) with
    | some r2 =>
      if r < 0xDC00 ∧ 0xDC00 ≤ r2 ∧ r2 < 0xE000 then
        some (Char.ofNat ((r - 0xD800) * 1024 + (r2 - 0xDC00) + 0x10000))
      else none
    | none => none
  | _ => none

/-- A rune in front of a parsed rest. -/
def consRune (ch : Char) (r : Option (List Char × List Char)) : Option (List Char × List Char) :=
  match r with
  | some (s, rest) => some (ch :: s, rest)
  | none => none

/-- Where the reader of a string literal stands: between runes; behind a
backslash; behind `\u` and `count` hexadecimal digits of value `value`; or
inside the escape of a low surrogate already paired, with `count` of its
characters still to pass. -/
inductive StringState where
  | normal
  | escape
  | hex (count value : Nat)
  | skip (count : Nat)

/-- The rest of a string literal after its opening quote: the string it
denotes and the text after its closing quote.  A control character, an
unknown escape or a `\u` without four hexadecimal digits is a syntax error;
a `\u` escape of a surrogate denotes, with a following low surrogate escape,
the rune of the pair, and U+FFFD otherwise. -/
def parseStringFrom : StringState → List Char → Option (List Char × List Char)
  | _, [] => none
  | .normal, c :: t =>
    if c = quoteChar then some ([], t)
    else if c = backslash then parseStringFrom .escape t
    else if c.toNat < 32 then none
    else consRune c (parseStringFrom .normal t)
  | .escape, e :: t =>
    if e = 'u' then parseStringFrom (.hex 0 0) t
    else
      match simpleEscape e with
      | none => none
      | some ch => consRune ch (parseStringFrom .normal t)
  | .hex count value, h :: t =>
    match hexVal h with
    | none => none
    | some x =>
      if count < 3 then parseStringFrom (.hex (count + 1) (value * 16 + x)) t
      else
        let r := value * 16 + x
        if 0xD800 ≤ r ∧ r < 0xE000 then
          match surrogateAhead r t with
          | some ch => consRune ch (parseStringFrom (.skip 6) t)
          | none => consRune replacementChar (parseStringFrom .normal t)
        else consRune (Char.ofNat r) (parseStringFrom .normal t)
  | .skip count, _ :: t =>
    if count ≤ 1 then parseStringFrom .normal t else parseStringFrom (.skip (count - 1)) t

/-- A string literal past its opening quote. -/
def parseStringBody (s : List Char) : Option (List Char × List Char) :=
  parseStringFrom .normal s

/-- A run of at least one digit and the text after it. -/
def scanDigits (s : List Char) : Option (List Char × List Char) :=
  if s.takeWhile isDigit = [] then none else some (s.takeWhile isDigit, s.dropWhile isDigit)

/-- The optional exponent of a number. -/
def scanExponent (s : List Char) : Option (List Char × List Char) :=
  match s with
  | e :: t =>
    if e = 'e' ∨ e = 'E' then
      match t with
      | sign :: t2 =>
        if sign = '+' ∨ sign = '-' then
          match scanDigits t2 with
          | some (ds, rest) => some (e :: sign :: ds, rest)
          | none => none
        else
          match scanDigits t with
          | some (ds, rest) => some (e :: ds, rest)
          | none => none
      | [] => none
    else some ([], s)
  | [] => some ([], s)

/-- The optional fraction of a number, then its optional exponent. -/
def scanFraction (s : List Char) : Option (List Char × List Char) :=
  match s with
  | dot :: t =>
    if dot = '.' then
      match scanDigits t with
      | some (ds, rest) =>
        match scanExponent rest with
        | some (ex, rest2) => some (dot :: (ds ++ ex), rest2)
        | none => none
      | none => none
    else scanExponent s
  | [] => some ([], s)

/-- The digits of a number after its sign: `0`, or a digit from 1 to 9 and
further digits; then the fraction and the exponent. -/
def scanUnsigned (s : List Char) : Option (List Char × List Char) :=
  match s with
  | c :: t =>
    if c = '0' then
      match scanFraction t with
      | some (fr, rest) => some (c :: fr, rest)
      | none => none
    else if isDigit c then
      match scanFraction (t.dropWhile isDigit) with
      | some (fr, rest) => some (c :: (t.takeWhile isDigit ++ fr), rest)
      | none => none
    else none
  | [] => none

/-- A number literal at the head of the text. -/
def scanNumber (s : List Char) : Option (List Char × List Char) :=
  match s with
  | c :: t =>
    if c = '-' then
      match scanUnsigned t with
      | some (lit, rest) => some (c :: lit, rest)
      | none => none
    else scanUnsigned s
  | [] => none

/-- The deepest nesting of arrays and objects `Unmarshal` accepts. -/
def maxNestingDepth : Nat := 10000

/-- The text without the given word at its head. -/
def dropWord (word s : List Char) : Option (List Char) :=
  if word.isPrefixOf s then some (s.drop word.length) else none

mutual
/-- One JSON value at the head of the text (white space before it already
skipped) and the text after it; `depth` counts the arrays and objects around
it. -/
def parseValue : Nat → Nat → List Char → Option (JSON × List Char)
  | 0, _, _ => none
  | fuel + 1, depth, s =>
    match s with
    | [] => none
    | c :: t =>
      if c = quoteChar then
        match parseStringBody t with
        | some (str, rest) => some (.string str, rest)
        | none => none
      else if c = '[' then
        if depth + 1 > maxNestingDepth then none
        else
          match skipWs t with
          | [] => none
          | c2 :: t2 =>
            if c2 = ']' then some (.array .nil, t2)
            else
              match parseValue fuel (depth + 1) (c2 :: t2) with
              | some (e, rest) =>
                match parseElems fuel (depth + 1) rest with
                | some (es, rest2) => some (.array (.cons e es), rest2)
                | none => none
              | none => none
      else if c = openBraceChar then
        if depth + 1 > maxNestingDepth then none
        else
          match skipWs t with
          | [] => none
          | c2 :: t2 =>
            if c2 = closeBraceChar then some (.object .nil, t2)
            else
              match parseMember fuel (depth + 1) (c2 :: t2) with
              | some (k, v, rest) =>
                match parseMembers fuel (depth + 1) rest with
                | some (ms, rest2) => some (.object (.cons k v ms), rest2)
                | none => none
              | none => none
      else if c = 't' then
        match dropWord ['r', 'u', 'e'] t with
        | some rest => some (.bool true, rest)
        | none => none
      else if c = 'f' then
        match dropWord ['a', 'l', 's', 'e'] t with
        | some rest => some (.bool false, rest)
        | none => none
      else if c = 'n' then
        match dropWord ['u', 'l', 'l'] t with
        | some rest => some (.null, rest)
        | none => none
      else
        match scanNumber s with
        | some (lit, rest) => some (.number lit, rest)
        | none => none
/-- What follows an element of an array: a comma and the next element, or
the closing bracket. -/
def parseElems : Nat → Nat → List Char → Option (JSONList × List Char)
  | 0, _, _ => none
  | fuel + 1, depth, s =>
    match skipWs s with
    | [] => none
    | c :: t =>
      if c = ']' then some (.nil, t)
      else if c = ',' then
        match parseValue fuel depth (skipWs t) with
        | some (e, rest) =>
          match parseElems fuel depth rest with
          | some (es, rest2) => some (.cons e es, rest2)
          | none => none
        | none => none
      else none
/-- One member of an object: its key, a colon and its value. -/
def parseMember : Nat → Nat → List Char → Option (List Char × JSON × List Char)
  | 0, _, _ => none
  | fuel + 1, depth, s =>
    match s with
    | [] => none
    | c :: t =>
      if c = quoteChar then
        match parseStringBody t with
        | some (k, rest) =>
          match skipWs rest with
          | [] => none
          | c2 :: t2 =>
            if c2 = ':' then
              match parseValue fuel depth (skipWs t2) with
              | some (v, rest2) => some (k, v, rest2)
              | none => none
            else none
        | none => none
      else none
/-- What follows a member of an object: a comma and the next member, or the
closing brace. -/
def parseMembers : Nat → Nat → List Char → Option (JSONMembers × List Char)
  | 0, _, _ => none
  | fuel + 1, depth, s =>
    match skipWs s with
    | [] => none
    | c :: t =>
      if c = closeBraceChar then some (.nil, t)
      else if c = ',' then
        match parseMember fuel depth (skipWs t) with
        | some (k, v, rest) =>
          match parseMembers fuel depth rest with
          | some (ms, rest2) => some (.cons k v ms, rest2)
          | none => none
        | none => none
      else none
end

/-- The document a text denotes, when the text is valid JSON: one value with
white space around it. -/
def parseJSON (text : List Char) : Option JSON :=
  match parseValue (text.length + 1) 0 (skipWs text) with
  | some (v, rest) => if skipWs rest = [] then some v else none
  | none => none

/-! ### Decoder: from the document to the `Finding` -/

/-- The rune a key's rune is compared as: `Unmarshal` matches keys to field
names ignoring case under Unicode simple folding.  The field names here are
lower-case ASCII; the runes that fold to a lower-case ASCII letter are its
upper-case letter, the Kelvin sign (to `k`) and the long s (to `s`). -/
def foldRune (c : Char) : Char :=
  let n := c.toNat
  if 65 ≤ n ∧ n ≤ 90 then Char.ofNat (n + 32)
  else if n = 0x212A then 'k'
  else if n = 0x17F then 's'
  else c

/-- Whether a key of the text names the field with the given tag. -/
def keyMatches (name : String) (key : List Char) : Bool :=
  key.map foldRune = name.data

/-- The value of a run of digits. -/
def digitsValue (ds : List Char) : Nat :=
  ds.foldl (fun acc c => acc * 10 + (c.toNat - 48)) 0

/-- Go `strconv.ParseInt(literal, 10, 64)` on a JSON number literal: an
optional minus sign and digits only, within 64 bits. -/
def parseIntLiteral (literal : List Char) : Option Int :=
  let digits := match literal with
    | c :: t => if c = '-' then t else literal
    | [] => literal
  let negative := match literal with
    | c :: _ => decide (c = '-')
    | [] => false
  if digits ≠ [] ∧ digits.all isDigit = true then
    let value : Int := if negative then -(digitsValue digits : Int) else (digitsValue digits : Int)
    if -9223372036854775808 ≤ value ∧ value ≤ 9223372036854775807 then some value else none
  else none

/-- A value stored in a field of type `int`. -/
def decodeInt (v : JSON) (old : Int) : Except String Int :=
  match v with
  | .null => .ok old
  | .number literal =>
    match parseIntLiteral literal with
    | some n => .ok n
    | none => .error "json: cannot unmarshal number into Go value of type int"
  | _ => .error "json: cannot unmarshal into Go value of type int"

/-- A value stored in a field of type `string`. -/
def decodeString (v : JSON) (old : String) : Except String String :=
  match v with
  | .null => .ok old
  | .string s => .ok (String.mk s)
  | _ => .error "json: cannot unmarshal into Go value of type string"

/-- The elements of an array stored in a `[]string`. -/
def decodeStringElems : JSONList → Except String (List String)
  | .nil => .ok []
  | .cons e es =>
    match decodeString e "" with
    | .error err => .error err
    | .ok s =>
      match decodeStringElems es with
      | .error err => .error err
      | .ok rest => .ok (s :: rest)

/-- A value stored in a field of type `[]string`. -/
def decodeStringSlice (v : JSON) : Except String (Option (List String)) :=
  match v with
  | .null => .ok none
  | .array es =>
    match decodeStringElems es with
    | .error err => .error err
    | .ok xs => .ok (some xs)
  | _ => .error "json: cannot unmarshal into Go value of type []string"

/-- The members of an object stored in a `Compliance`. -/
def decodeComplianceMembers : JSONMembers → Compliance → Except String Compliance
  | .nil, c => .ok c
  | .cons k v ms, c =>
    if keyMatches "name" k then
      match decodeString v c.Name with
      | .error err => .error err
      | .ok s => decodeComplianceMembers ms { c with Name := s }
    else if keyMatches "reference" k then
      match decodeString v c.Reference with
      | .error err => .error err
      | .ok s => decodeComplianceMembers ms { c with Reference := s }
    else if keyMatches "version" k then
      match decodeString v c.Version with
      | .error err => .error err
      | .ok s => decodeComplianceMembers ms { c with Version := s }
    else decodeComplianceMembers ms c

/-- A value stored in a `Compliance`. -/
def decodeCompliance (v : JSON) (old : Compliance) : Except String Compliance :=
  match v with
  | .null => .ok old
  | .object ms => decodeComplianceMembers ms old
  | _ => .error "json: cannot unmarshal into Go value of type main.Compliance"

/-- The elements of an array stored in a `[]Compliance`. -/
def decodeComplianceElems : JSONList → Except String (List Compliance)
  | .nil => .ok []
  | .cons e es =>
    match decodeCompliance e { Name := "", Reference := "", Version := "" } with
    | .error err => .error err
    | .ok c =>
      match decodeComplianceElems es with
      | .error err => .error err
      | .ok rest => .ok (c :: rest)

/-- A value stored in a field of type `*[]Compliance`. -/
def decodeCompliancePtr (v : JSON) : Except String (Option (List Compliance)) :=
  match v with
  | .null => .ok none
  | .array es =>
    match decodeComplianceElems es with
    | .error err => .error err
    | .ok cs => .ok (some cs)
  | _ => .error "json: cannot unmarshal into Go value of type []main.Compliance"

/-- The zero value of `Finding`. -/
def zeroFinding : Finding :=
  { CheckedItems := 0, Compliance := none, DashboardName := "", Description := "",
    DisplayPath := "", FlaggedItems := 0, Items := none, Level := "", Path := "",
    Rationale := "", References := none, Remediation := "", Service := "" }

/-- One member of an object stored in a `Finding`: the field its key names is
set from its value; a member that names no field is skipped. -/
def decodeFindingMember (k : List Char) (v : JSON) (f : Finding) : Except String Finding :=
  if keyMatches "checked_items" k then
    match decodeInt v f.CheckedItems with
    | .error err => .error err
    | .ok n => .ok { f with CheckedItems := n }
  else if keyMatches "compliance" k then
    match decodeCompliancePtr v with
    | .error err => .error err
    | .ok cs => .ok { f with Compliance := cs }
  else if keyMatches "dashboard_name" k then
    match decodeString v f.DashboardName with
    | .error err => .error err
    | .ok s => .ok { f with DashboardName := s }
  else if keyMatches "description" k then
    match decodeString v f.Description with
    | .error err => .error err
    | .ok s => .ok { f with Description := s }
  else if keyMatches "display_path" k then
    match decodeString v f.DisplayPath with
    | .error err => .error err
    | .ok s => .ok { f with DisplayPath := s }
  else if keyMatches "flagged_items" k then
    match decodeInt v f.FlaggedItems with
    | .error err => .error err
    | .ok n => .ok { f with FlaggedItems := n }
  else if keyMatches "items" k then
    match decodeStringSlice v with
    | .error err => .error err
    | .ok xs => .ok { f with Items := xs }
  else if keyMatches "level" k then
    match decodeString v f.Level with
    | .error err => .error err
    | .ok s => .ok { f with Level := s }
  else if keyMatches "path" k then
    match decodeString v f.Path with
    | .error err => .error err
    | .ok s => .ok { f with Path := s }
  else if keyMatches "rationale" k then
    match decodeString v f.Rationale with
    | .error err => .error err
    | .ok s => .ok { f with Rationale := s }
  else if keyMatches "references" k then
    match decodeStringSlice v with
    | .error err => .error err
    | .ok xs => .ok { f with References := xs }
  else if keyMatches "remediation" k then
    match decodeString v f.Remediation with
    | .error err => .error err
    | .ok s => .ok { f with Remediation := s }
  else if keyMatches "service" k then
    match decodeString v f.Service with
    | .error err => .error err
    | .ok s => .ok { f with Service := s }
  else .ok f

/-- The members of an object stored in a `Finding`, in the order of the
text. -/
def decodeFindingMembers : JSONMembers → Finding → Except String Finding
  | .nil, f => .ok f
  | .cons k v ms, f =>
    match decodeFindingMember k v f with
    | .error err => .error err
    | .ok f2 => decodeFindingMembers ms f2

/-- A document stored in a `Finding`. -/
def decodeFinding (v : JSON) (old : Finding) : Except String Finding :=
  match v with
  | .null => .ok old
  | .object ms => decodeFindingMembers ms old
  | _ => .error "json: cannot unmarshal into Go value of type main.Finding"

/-- Modelled from the spec: `json.Unmarshal(text, &f)` with `f` a fresh
`Finding`, the "parsing the printed JSON back" of the spec's round-trip
property; Go library code, not in the repository's sources. -/
def goUnmarshalFinding (text : List Char) : Except String Finding :=
  match parseJSON text with
  | none => .error "invalid character"
  | some v => decodeFinding v zeroFinding

/-! ### Measures of a document -/

mutual
/-- The number literals of the document are those `strconv.FormatInt`
writes. -/
def Printable : JSON → Prop
  | .number literal => ∃ i : Int, literal = formatInt i
  | .array es => PrintableList es
  | .object ms => PrintableMembers ms
  | _ => True
def PrintableList : JSONList → Prop
  | .nil => True
  | .cons e es => Printable e ∧ PrintableList es
def PrintableMembers : JSONMembers → Prop
  | .nil => True
  | .cons _ v ms => Printable v ∧ PrintableMembers ms
end

mutual
/-- The fuel the parser needs for a document. -/
def size : JSON → Nat
  | .array es => 1 + sizeList es
  | .object ms => 1 + sizeMembers ms
  | _ => 1
def sizeList : JSONList → Nat
  | .nil => 1
  | .cons e es => size e + sizeList es
def sizeMembers : JSONMembers → Nat
  | .nil => 1
  | .cons _ v ms => 1 + size v + sizeMembers ms
end

mutual
/-- How deep arrays and objects nest in a document. -/
def nesting : JSON → Nat
  | .array es => 1 + nestingList es
  | .object ms => 1 + nestingMembers ms
  | _ => 0
def nestingList : JSONList → Nat
  | .nil => 0
  | .cons e es => max (nesting e) (nestingList es)
def nestingMembers : JSONMembers → Nat
  | .nil => 0
  | .cons _ v ms => max (nesting v) (nestingMembers ms)
end

/-- What may follow a value in the text `MarshalIndent` writes: nothing, a
comma or a line break. -/
def Stop (rest : List Char) : Prop :=
  ∀ c ∈ rest.head?, c = ',' ∨ c = '\n'


/-! ## Sample environments -/

/-- The bytes of `report = {}`. -/
def assignmentBytes : List Nat := [114, 101, 112, 111, 114, 116, 32, 61, 32, 123, 125]

/-- A directory `scans` holding one report whose bytes are `content`; the
parser accepts the empty object only, `json.MarshalIndent` is the encoder
modelled above (with the short escapes of recent Go versions), and the
completions endpoint answers with one choice. -/
def sampleWorld (content : List Nat) : World :=
  { walkEntries :=
      [ { path := "scans", name := "scans", isDir := true, err := none },
        { path := "scans/scoutsuite_results_aws-1.js", name := "scoutsuite_results_aws-1.js",
          isDir := false, err := none } ]
    fileMatch := fun _ name => .ok ("scoutsuite_results_aws-".data.isPrefixOf name.data)
    readFile := fun path =>
      if path = "scans/scoutsuite_results_aws-1.js" then .ok content
      else .error ("open " ++ path ++ ": no such file or directory")
    unmarshalReport := fun bytes =>
      if bytes = [123, 125] then .ok { Services := [] } else .error "unexpected end of JSON input"
    unmarshalResponse := fun _ => .ok { Choices := [{ Text := " Do X.\n" }] }
    marshalIndent := fun f => .ok (String.mk (goMarshalIndent true f))
    post := fun _ _ => .ok []
    apiKey := "key"
    keyboardOpen := none }

/-- The world of `sampleWorld` with an empty directory `scans`. -/
def emptyDirWorld : World :=
  { sampleWorld [] with
    walkEntries := [ { path := "scans", name := "scans", isDir := true, err := none } ] }

/-- The world of `sampleWorld` whose report is `report = {}` and whose parser
(a parameter of the model) answers `threeServices` on the stripped bytes. -/
def threeServicesWorld : World :=
  { sampleWorld assignmentBytes with
    unmarshalReport := fun bytes =>
      if bytes = [123, 125] then .ok threeServices else .error "unexpected end of JSON input" }

/-- The world of `sampleWorld` with two reports under `scans`. -/
def twoReportsWorld : World :=
  { sampleWorld [] with
    walkEntries :=
      [ { path := "scans", name := "scans", isDir := true, err := none },
        { path := "scans/a", name := "a", isDir := true, err := none },
        { path := "scans/a/scoutsuite_results_aws-1.js", name := "scoutsuite_results_aws-1.js",
          isDir := false, err := none },
        { path := "scans/a/notes.txt", name := "notes.txt", isDir := false, err := none },
        { path := "scans/b", name := "b", isDir := true, err := none },
        { path := "scans/b/scoutsuite_results_aws-2.js", name := "scoutsuite_results_aws-2.js",
          isDir := false, err := none } ] }

/-- The danger findings of `threeServices`. -/
def sampleFindings : List Finding :=
  dangerFindingsOf threeServices

/-- A finding with a compliance list, an empty item slice and a nil reference
slice. -/
def richFinding : Finding :=
  { CheckedItems := 12, Compliance := some [{ Name := "CIS", Reference := "2.1", Version := "1.2.0" }],
    DashboardName := "Buckets", Description := "Bucket <public> & \"open\"", DisplayPath := "",
    FlaggedItems := -3, Items := some [], Level := "danger", Path := "s3.buckets.id",
    Rationale := "line one\nline two", References := none, Remediation := "",
    Service := "S3" }

/-! ## Lemmas on the filter -/

theorem collectService_eq (acc : List Finding) (service : Service) :
    collectService acc service
      = acc ++ (service.Findings.map Prod.snd).filter (fun f => f.Level = "danger") := by
  unfold collectService
  generalize service.Findings = entries
  induction entries generalizing acc with
  | nil => simp
  | cons e rest ih =>
    simp only [List.foldl_cons, List.map_cons]
    by_cases h : e.2.Level = "danger"
    · simp [h, ih, List.filter_cons]
    · simp [h, ih, List.filter_cons]

theorem foldl_collectService_eq (services : List (String × Service)) (acc : List Finding) :
    services.foldl (fun acc service => collectService acc service.2) acc
      = acc ++ ((services.map (fun service => service.2.Findings.map Prod.snd)).flatten).filter
          (fun f => f.Level = "danger") := by
  induction services generalizing acc with
  | nil => simp
  | cons s rest ih =>
    rw [List.foldl_cons, ih, collectService_eq]
    simp [List.append_assoc]

theorem dangerFindingsOf_eq (report : ScoutSuiteReport) :
    dangerFindingsOf report = (allFindings report).filter (fun f => f.Level = "danger") := by
  simp [dangerFindingsOf, allFindings, foldl_collectService_eq]

theorem length_filter_allFindings (services : List (String × Service)) :
    (((services.map (fun service => service.2.Findings.map Prod.snd)).flatten).filter
        (fun f => f.Level = "danger")).length
      = (services.map (fun service => dangerCount service.2)).sum := by
  induction services with
  | nil => simp
  | cons s rest ih =>
    simp only [List.map_cons, List.flatten_cons, List.filter_append, List.length_append,
      List.sum_cons, ih, dangerCount]
    congr 1
    generalize s.2.Findings = entries
    induction entries with
    | nil => simp
    | cons e es ihe =>
      by_cases h : e.2.Level = "danger" <;> simp [List.filter_cons, h, ihe]

/-! ## Lemmas on the locator and the loader -/

theorem stringsJoin_data (elems : List String) (sep : String) :
    (stringsJoin elems sep).data = List.intercalate sep.data (elems.map String.data) := by
  induction elems with
  | nil => rfl
  | cons s rest ih =>
    cases rest with
    | nil => simp [stringsJoin, List.intercalate]
    | cons t rest' =>
      simp only [stringsJoin, String.data_append, ih]
      simp [List.intercalate, List.intersperse, List.append_assoc]

theorem stringsJoin_contains (elems : List String) (sep : String) (p : String) (hp : p ∈ elems) :
    p.data <:+: (stringsJoin elems sep).data := by
  induction elems with
  | nil => cases hp
  | cons s rest ih =>
    cases rest with
    | nil =>
      have : p = s := by simpa using hp
      subst this
      exact List.infix_refl _
    | cons t rest' =>
      simp only [stringsJoin, String.data_append]
      rcases List.mem_cons.mp hp with h | h
      · subst h
        exact ⟨[], sep.data ++ (stringsJoin (t :: rest') sep).data, by simp⟩
      · exact List.IsInfix.trans (ih h) (List.suffix_append _ _).isInfix

theorem bytesIndexFrom_first (pre post : List Nat) (i : Nat) (h : openBrace ∉ pre) :
    bytesIndexFrom [openBrace] (pre ++ openBrace :: post) i = ((i + pre.length : Nat) : Int) := by
  induction pre generalizing i with
  | nil => simp [bytesIndexFrom, List.isPrefixOf]
  | cons b rest ih =>
    have hb : openBrace ≠ b := fun e => h (by simp [e])
    have hrest : openBrace ∉ rest := fun e => h (by simp [e])
    have hbeq : (openBrace == b) = false := by simpa using hb
    simp only [List.cons_append, bytesIndexFrom, List.isPrefixOf, hbeq,
      Bool.false_and, Bool.false_eq_true, ↓reduceIte, List.length_cons]
    have hstep := ih (i + 1) hrest
    simp only [List.append_eq] at hstep ⊢
    rw [hstep]
    congr 1
    omega

theorem bytesIndexFrom_absent (s : List Nat) (i : Nat) (h : openBrace ∉ s) :
    bytesIndexFrom [openBrace] s i = -1 := by
  induction s generalizing i with
  | nil => simp [bytesIndexFrom, List.isPrefixOf]
  | cons b rest ih =>
    have hb : openBrace ≠ b := fun e => h (by simp [e])
    have hrest : openBrace ∉ rest := fun e => h (by simp [e])
    simp [bytesIndexFrom, List.isPrefixOf, hb, ih (i + 1) hrest]

theorem stripPrefix_first (pre post : List Nat) (h : openBrace ∉ pre) :
    stripPrefix (pre ++ openBrace :: post) = .ok (openBrace :: post) := by
  unfold stripPrefix sliceFrom bytesIndex
  rw [bytesIndexFrom_first pre post 0 h]
  have hle : (0 : Int) ≤ ((0 + pre.length : Nat) : Int)
      ∧ ((0 + pre.length : Nat) : Int) ≤ ((pre ++ openBrace :: post).length : Int) := by
    constructor
    · exact Int.ofNat_nonneg _
    · simp only [List.length_append, List.length_cons]
      omega
  rw [if_pos hle]
  simp

theorem stripPrefix_absent (s : List Nat) (h : openBrace ∉ s) :
    stripPrefix s = .error (.sliceBounds (-1) s.length) := by
  unfold stripPrefix sliceFrom bytesIndex
  rw [bytesIndexFrom_absent s 0 h]
  simp

theorem findReportFileName_of_walk (w : World) (out : List Event) (foundFiles : List String)
    (hwalk : walk w.fileMatch w.walkEntries [] = (out, .ok foundFiles)) :
    findReportFileName w = (out, .returned (findReportFileNameOf foundFiles)) := by
  simp only [findReportFileName, hwalk]

theorem loadFindings_of_read (w : World) (out : List Event) (path : String)
    (content : List Nat)
    (hwalk : walk w.fileMatch w.walkEntries [] = (out, .ok [path]))
    (hread : w.readFile path = .ok content) :
    loadFindings w
      = (out ++ [Event.print ("report name: " ++ path ++ "\n"), Event.readFile path]
            ++ (loadFindingsFrom w.unmarshalReport content).1,
          (loadFindingsFrom w.unmarshalReport content).2) := by
  have hloc : findReportFileNameOf [path] = (none, path) := rfl
  simp only [loadFindings, findReportFileName, hwalk, hloc, hread, List.append_nil]

theorem loadFindings_of_strip (w : World) (out : List Event) (path : String)
    (content stripped : List Nat)
    (hwalk : walk w.fileMatch w.walkEntries [] = (out, .ok [path]))
    (hread : w.readFile path = .ok content)
    (hstrip : stripPrefix content = .ok stripped) :
    loadFindings w
      = (match w.unmarshalReport stripped with
         | .error err =>
           (out ++ [Event.print ("report name: " ++ path ++ "\n"), Event.readFile path,
                    Event.print "Error unmarshalling json\n"],
            .panicked (.err err))
         | .ok report =>
           (out ++ [Event.print ("report name: " ++ path ++ "\n"), Event.readFile path],
            .returned (dangerFindingsOf report))) := by
  rw [loadFindings_of_read w out path content hwalk hread]
  simp only [loadFindingsFrom, hstrip, parseAndFilter]
  cases w.unmarshalReport stripped <;> simp

theorem split_at_first (content : List Nat) (h : openBrace ∈ content) :
    ∃ pre post, content = pre ++ openBrace :: post ∧ openBrace ∉ pre := by
  induction content with
  | nil => cases h
  | cons b rest ih =>
    by_cases hb : b = openBrace
    · exact ⟨[], rest, by simp [hb], by simp⟩
    · have hrest : openBrace ∈ rest := by
        rcases List.mem_cons.mp h with e | e
        · exact absurd e.symm hb
        · exact e
      obtain ⟨pre, post, hsplit, hpre⟩ := ih hrest
      refine ⟨b :: pre, post, by simp [hsplit], ?_⟩
      intro hmem
      rcases List.mem_cons.mp hmem with e | e
      · exact hb e.symm
      · exact hpre e

/-! ## Lemmas on `trimSpace` -/

theorem rdropWhile_split (p : Char → Bool) (l : List Char) :
    ∃ post, l = l.rdropWhile p ++ post ∧ ∀ c ∈ post, p c = true := by
  induction l using List.reverseRecOn with
  | nil => exact ⟨[], by simp, by simp⟩
  | append_singleton l x ih =>
    by_cases hx : p x = true
    · obtain ⟨post, hsplit, hpost⟩ := ih
      refine ⟨post ++ [x], ?_, ?_⟩
      · rw [List.rdropWhile_concat_pos p l x hx, ← List.append_assoc, ← hsplit]
      · intro c hc
        rcases List.mem_append.mp hc with h | h
        · exact hpost c h
        · have : c = x := by simpa using h
          rw [this]; exact hx
    · exact ⟨[], by rw [List.rdropWhile_concat_neg p l x hx]; simp, by simp⟩

theorem trimSpace_split (text : String) :
    ∃ pre post, text.data = pre ++ (trimSpace text).data ++ post
      ∧ (∀ c ∈ pre, isSpace c = true) ∧ (∀ c ∈ post, isSpace c = true) := by
  obtain ⟨post, hsplit, hpost⟩ := rdropWhile_split isSpace (text.data.dropWhile isSpace)
  refine ⟨text.data.takeWhile isSpace, post, ?_, ?_, hpost⟩
  · show text.data = _ ++ (text.data.dropWhile isSpace).rdropWhile isSpace ++ post
    rw [List.append_assoc, ← hsplit, List.takeWhile_append_dropWhile]
  · intro c hc
    exact List.mem_takeWhile_imp hc

theorem trimSpace_head (text : String) (c : Char)
    (h : (trimSpace text).data.head? = some c) : isSpace c = false := by
  have hpre : (text.data.dropWhile isSpace).rdropWhile isSpace <+: text.data.dropWhile isSpace :=
    List.rdropWhile_prefix isSpace _
  obtain ⟨post, hpost⟩ := hpre
  have hh : ((text.data.dropWhile isSpace).rdropWhile isSpace).head? = some c := h
  have hne : (text.data.dropWhile isSpace).rdropWhile isSpace ≠ [] := by
    intro e; rw [e] at hh; simp at hh
  have hhead : (text.data.dropWhile isSpace).head? = some c := by
    rw [← hpost, List.head?_append_of_ne_nil _ hne]; exact hh
  have hnot := List.head?_dropWhile_not isSpace text.data
  rw [hhead] at hnot
  simpa using hnot

theorem trimSpace_last (text : String) (c : Char)
    (h : (trimSpace text).data.getLast? = some c) : isSpace c = false := by
  have hh : ((text.data.dropWhile isSpace).rdropWhile isSpace).getLast? = some c := h
  have hne : (text.data.dropWhile isSpace).rdropWhile isSpace ≠ [] := by
    intro e; rw [e] at hh; simp at hh
  have hnot := List.rdropWhile_last_not isSpace (text.data.dropWhile isSpace) hne
  rw [List.getLast?_eq_getLast _ hne] at hh
  have hc : ((text.data.dropWhile isSpace).rdropWhile isSpace).getLast hne = c := by
    simpa using hh
  rw [hc] at hnot
  simpa using hnot

/-! ## Lemmas on the navigator -/

theorem indexFinding_ok (findings : List Finding) (i : Int)
    (hlo : 0 ≤ i) (hhi : i < (findings.length : Int)) :
    ∃ f, indexFinding findings i = .ok f ∧ f ∈ findings := by
  have hlt : i.toNat < findings.length := by omega
  refine ⟨findings.get ⟨i.toNat, hlt⟩, ?_, List.get_mem _ _ _⟩
  unfold indexFinding
  rw [if_pos ⟨hlo, hhi⟩, List.get?_eq_get hlt]

theorem render_running (out : List Event) (findings : List Finding) (total i : Int)
    (hlo : 0 ≤ i) (hhi : i < (findings.length : Int)) :
    (render out i total findings).2 = .running i := by
  obtain ⟨f, hf, _⟩ := indexFinding_ok findings i hlo hhi
  simp [render, printFinding, hf]

theorem wrapInt_id (x : Int) (hlo : -9223372036854775808 ≤ x) (hhi : x ≤ 9223372036854775807) :
    wrapInt x = x := by
  unfold wrapInt
  omega

theorem step_j (w : World) (findings : List Finding) (i : Int)
    (hmax : (findings.length : Int) ≤ maxInt)
    (hlo : 0 ≤ i) (hhi : i ≤ (findings.length : Int) - 1) :
    (step w findings findings.length i ⟨'j', none⟩).2
      = .running (min (i + 1) ((findings.length : Int) - 1)) := by
  unfold maxInt at hmax
  have h1 : wrapInt (i + 1) = i + 1 := wrapInt_id _ (by omega) (by omega)
  have h2 : wrapInt ((findings.length : Int) - 1) = (findings.length : Int) - 1 :=
    wrapInt_id _ (by omega) (by omega)
  simp only [step, h1, h2, if_true]
  by_cases hge : i + 1 ≥ (findings.length : Int)
  · rw [if_pos hge, render_running _ _ _ _ (by omega) (by omega)]
    congr 1; omega
  · rw [if_neg hge, render_running _ _ _ _ (by omega) (by omega)]
    congr 1; omega

theorem step_k (w : World) (findings : List Finding) (i : Int)
    (hmax : (findings.length : Int) ≤ maxInt)
    (hlo : 0 ≤ i) (hhi : i ≤ (findings.length : Int) - 1) :
    (step w findings findings.length i ⟨'k', none⟩).2 = .running (max (i - 1) 0) := by
  unfold maxInt at hmax
  have h1 : wrapInt (i - 1) = i - 1 := wrapInt_id _ (by omega) (by omega)
  have hk : ¬ ('k' = 'j') := by decide
  simp only [step, h1, hk, if_false, if_true]
  by_cases hneg : i - 1 < 0
  · rw [if_pos hneg, render_running _ _ _ _ (by omega) (by omega)]
    congr 1; omega
  · rw [if_neg hneg, render_running _ _ _ _ (by omega) (by omega)]
    congr 1; omega

theorem step_p (w : World) (findings : List Finding) (i : Int)
    (hlo : 0 ≤ i) (hhi : i ≤ (findings.length : Int) - 1)
    (hmarshal : ∀ f ∈ findings, ∃ text, w.marshalIndent f = .ok text) :
    (step w findings findings.length i ⟨'p', none⟩).2 = .running i := by
  obtain ⟨f, hf, hmem⟩ := indexFinding_ok findings i hlo (by omega)
  obtain ⟨text, htext⟩ := hmarshal f hmem
  have h1 : ¬ ('p' = 'j') := by decide
  have h2 : ¬ ('p' = 'k') := by decide
  simp only [step, h1, h2, if_false, if_true, hf, printFindingAsString, htext]
  exact render_running _ _ _ _ hlo (by omega)

theorem step_d (w : World) (findings : List Finding) (i : Int)
    (hlo : 0 ≤ i) (hhi : i ≤ (findings.length : Int) - 1)
    (hmarshal : ∀ f ∈ findings, ∃ text, w.marshalIndent f = .ok text) :
    (step w findings findings.length i ⟨'d', none⟩).2 = .running i := by
  obtain ⟨f, hf, hmem⟩ := indexFinding_ok findings i hlo (by omega)
  obtain ⟨text, htext⟩ := hmarshal f hmem
  have h1 : ¬ ('d' = 'j') := by decide
  have h2 : ¬ ('d' = 'k') := by decide
  have h3 : ¬ ('d' = 'p') := by decide
  simp only [step, h1, h2, h3, if_false, if_true, hf, printFindingAsString, htext]
  exact render_running _ _ _ _ hlo (by omega)

theorem step_other (w : World) (findings : List Finding) (total i : Int) (c : Char)
    (hj : c ≠ 'j') (hk : c ≠ 'k') (hp : c ≠ 'p') (hd : c ≠ 'd') (hq : c ≠ 'q') :
    step w findings total i ⟨c, none⟩ = ([], .running i) := by
  simp [step, hj, hk, hp, hd, hq]

theorem step_q (w : World) (findings : List Finding) (total i : Int) :
    step w findings total i ⟨'q', none⟩ = ([], .exited) := by
  have h1 : ¬ ('q' = 'j') := by decide
  have h2 : ¬ ('q' = 'k') := by decide
  have h3 : ¬ ('q' = 'p') := by decide
  have h4 : ¬ ('q' = 'd') := by decide
  simp [step, h1, h2, h3, h4]

theorem step_err (w : World) (findings : List Finding) (total i : Int) (c : Char) (e : String) :
    step w findings total i ⟨c, some e⟩ = ([], .panicked (.err e)) := by
  simp [step]

theorem mainLoop_jk (w : World) (findings : List Finding)
    (htotal : 1 ≤ findings.length) (hmax : (findings.length : Int) ≤ maxInt)
    (keys : List KeyRead)
    (hkeys : ∀ key ∈ keys, key.err = none ∧ (key.char = 'j' ∨ key.char = 'k')) :
    ∀ i : Int, 0 ≤ i → i ≤ (findings.length : Int) - 1 →
      ∃ currentIndex : Int,
        (mainLoop w findings findings.length (.running i) keys).2 = .running currentIndex
        ∧ 0 ≤ currentIndex ∧ currentIndex ≤ (findings.length : Int) - 1 := by
  induction keys with
  | nil => intro i hlo hhi; exact ⟨i, by simp [mainLoop], hlo, hhi⟩
  | cons key rest ih =>
    intro i hlo hhi
    have hrest : ∀ key ∈ rest, key.err = none ∧ (key.char = 'j' ∨ key.char = 'k') :=
      fun k hk => hkeys k (List.mem_cons_of_mem _ hk)
    obtain ⟨herr, hchar⟩ := hkeys key (List.mem_cons_self _ _)
    have hstep : ∃ i2 : Int, (step w findings findings.length i key).2 = .running i2
        ∧ 0 ≤ i2 ∧ i2 ≤ (findings.length : Int) - 1 := by
      obtain ⟨c, e⟩ := key
      simp only at herr hchar
      subst herr
      rcases hchar with h | h
      · subst h
        exact ⟨_, step_j w findings i hmax hlo hhi, by omega, by omega⟩
      · subst h
        exact ⟨_, step_k w findings i hmax hlo hhi, by omega, by omega⟩
    obtain ⟨i2, hi2, hlo2, hhi2⟩ := hstep
    obtain ⟨idx, hidx, hb⟩ := ih hrest i2 hlo2 hhi2
    refine ⟨idx, ?_, hb⟩
    simp only [mainLoop, hi2]
    exact hidx

/-! ## Lemmas on the JSON encoder and decoder -/

theorem char_eq_of_toNat (c d : Char) (h : c.toNat = d.toNat) : c = d := by
  apply Char.ext
  apply UInt32.ext
  exact h

theorem toNat_ne_of_ne (c d : Char) (h : c.toNat ≠ d.toNat) : c ≠ d :=
  fun e => h (by rw [e])

theorem hexVal_hexDigit (k : Nat) (hk : k < 16) : hexVal (hexDigit k) = some k := by
  interval_cases k <;> decide

theorem parseStringBody_escape2 (e ch : Char) (X : List Char)
    (hu : e ≠ 'u') (hs : simpleEscape e = some ch) :
    parseStringBody (backslash :: e :: X) = consRune ch (parseStringBody X) := by
  have hb : backslash ≠ quoteChar := by decide
  simp only [parseStringBody, parseStringFrom, hb, if_false, if_true, hu, hs]

theorem parseStringBody_hex (h1 h2 h3 h4 : Char) (x1 x2 x3 x4 : Nat) (X : List Char)
    (e1 : hexVal h1 = some x1) (e2 : hexVal h2 = some x2) (e3 : hexVal h3 = some x3)
    (e4 : hexVal h4 = some x4) (hlow : ((x1 * 16 + x2) * 16 + x3) * 16 + x4 < 0xD800) :
    parseStringBody (backslash :: 'u' :: h1 :: h2 :: h3 :: h4 :: X)
      = consRune (Char.ofNat (((x1 * 16 + x2) * 16 + x3) * 16 + x4)) (parseStringBody X) := by
  have hb : backslash ≠ quoteChar := by decide
  have hns : ¬ (0xD800 ≤ ((x1 * 16 + x2) * 16 + x3) * 16 + x4
      ∧ ((x1 * 16 + x2) * 16 + x3) * 16 + x4 < 0xE000) := by omega
  simp [parseStringBody, parseStringFrom, hb, e1, e2, e3, e4, hns]

theorem parseStringBody_plain (c : Char) (X : List Char)
    (hq : c.toNat ≠ 34) (hb : c.toNat ≠ 92) (hc : 32 ≤ c.toNat) :
    parseStringBody (c :: X) = consRune c (parseStringBody X) := by
  have h1 : c ≠ quoteChar := toNat_ne_of_ne _ _ hq
  have h2 : c ≠ backslash := toNat_ne_of_ne _ _ hb
  have h3 : ¬ c.toNat < 32 := by omega
  simp only [parseStringBody, parseStringFrom, h1, h2, h3, if_false]

theorem parse_escapeRune (se : Bool) (c : Char) (X : List Char) :
    parseStringBody (escapeRune se c ++ X) = consRune c (parseStringBody X) := by
  unfold escapeRune
  simp only []
  split_ifs with h1 h2 h3 h4 h5 h6 h7 h8
  · rcases h1 with h | h
    · have hc : c = backslash := char_eq_of_toNat _ _ h
      subst hc
      exact parseStringBody_escape2 _ _ X (by decide) (by decide)
    · have hc : c = quoteChar := char_eq_of_toNat _ _ h
      subst hc
      exact parseStringBody_escape2 _ _ X (by decide) (by decide)
  · have hc : c = '\n' := char_eq_of_toNat _ _ h2
    subst hc
    exact parseStringBody_escape2 _ _ X (by decide) (by decide)
  · have hc : c = '\r' := char_eq_of_toNat _ _ h3
    subst hc
    exact parseStringBody_escape2 _ _ X (by decide) (by decide)
  · have hc : c = '\t' := char_eq_of_toNat _ _ h4
    subst hc
    exact parseStringBody_escape2 _ _ X (by decide) (by decide)
  · have hc : c = '\x08' := char_eq_of_toNat _ _ h5.2
    subst hc
    exact parseStringBody_escape2 _ _ X (by decide) (by decide)
  · have hc : c = '\x0c' := char_eq_of_toNat _ _ h6.2
    subst hc
    exact parseStringBody_escape2 _ _ X (by decide) (by decide)
  · have hlt : c.toNat < 128 := by omega
    have hd1 : c.toNat / 16 < 16 := by omega
    have hd2 : c.toNat % 16 < 16 := by omega
    have h := parseStringBody_hex '0' '0' (hexDigit (c.toNat / 16)) (hexDigit (c.toNat % 16))
      0 0 (c.toNat / 16) (c.toNat % 16) X (by decide) (by decide)
      (hexVal_hexDigit _ hd1) (hexVal_hexDigit _ hd2) (by omega)
    have hval : ((0 * 16 + 0) * 16 + c.toNat / 16) * 16 + c.toNat % 16 = c.toNat := by omega
    rw [hval, Char.ofNat_toNat] at h
    exact h
  · have hd2 : c.toNat % 16 < 16 := by omega
    have h := parseStringBody_hex '2' '0' '2' (hexDigit (c.toNat % 16))
      2 0 2 (c.toNat % 16) X (by decide) (by decide) (by decide)
      (hexVal_hexDigit _ hd2) (by omega)
    have hval : ((2 * 16 + 0) * 16 + 2) * 16 + c.toNat % 16 = c.toNat := by omega
    rw [hval, Char.ofNat_toNat] at h
    exact h
  · exact parseStringBody_plain c X (by omega) (by omega) (by omega)

theorem parseStringBody_escapeString (se : Bool) (s rest : List Char) :
    parseStringBody (escapeString se s ++ quoteChar :: rest) = some (s, rest) := by
  induction s with
  | nil => simp [escapeString, parseStringBody, parseStringFrom]
  | cons c t ih =>
    rw [escapeString, List.append_assoc, parse_escapeRune, ih]
    rfl

/-! ### Numbers -/

theorem formatDigits_acc (fuel : Nat) : ∀ (n : Nat) (acc : List Char), n < fuel →
    formatDigits fuel n acc = formatDigits fuel n [] ++ acc := by
  induction fuel with
  | zero => intro n acc h; omega
  | succ f ih =>
    intro n acc h
    simp only [formatDigits]
    by_cases h10 : n < 10
    · simp [h10]
    · simp only [h10, if_false]
      have hlt : n / 10 < f := by omega
      rw [ih (n / 10) (hexDigit (n % 10) :: acc) hlt, ih (n / 10) [hexDigit (n % 10)] hlt]
      simp

theorem formatDigits_fuel (f1 : Nat) : ∀ (f2 n : Nat), n < f1 → n < f2 →
    formatDigits f1 n [] = formatDigits f2 n [] := by
  induction f1 with
  | zero => intro f2 n h; omega
  | succ f ih =>
    intro f2 n h1 h2
    cases f2 with
    | zero => omega
    | succ g =>
      simp only [formatDigits]
      by_cases h10 : n < 10
      · simp [h10]
      · simp only [h10, if_false]
        have hlt : n / 10 < f := by omega
        have hlt2 : n / 10 < g := by omega
        rw [formatDigits_acc f _ _ hlt, formatDigits_acc g _ _ hlt2, ih g (n / 10) hlt hlt2]

theorem formatNat_small (n : Nat) (h : n < 10) : formatNat n = [hexDigit n] := by
  simp [formatNat, formatDigits, h]

theorem formatNat_step (n : Nat) (h : ¬ n < 10) :
    formatNat n = formatNat (n / 10) ++ [hexDigit (n % 10)] := by
  have hstep : formatDigits (n + 1) n [] = formatDigits n (n / 10) [hexDigit (n % 10)] := by
    simp only [formatDigits, h, if_false]
  unfold formatNat
  rw [hstep, formatDigits_acc n _ _ (by omega),
    formatDigits_fuel n (n / 10 + 1) (n / 10) (by omega) (by omega)]

theorem isDigit_hexDigit (k : Nat) (hk : k < 10) : isDigit (hexDigit k) = true := by
  interval_cases k <;> decide

theorem hexDigit_value (k : Nat) (hk : k < 10) : (hexDigit k).toNat - 48 = k := by
  interval_cases k <;> decide

theorem hexDigit_ne_zero (k : Nat) (hk : k < 10) (hpos : 0 < k) : hexDigit k ≠ '0' := by
  interval_cases k <;> decide

theorem formatNat_all_digits (n : Nat) : ∀ c ∈ formatNat n, isDigit c = true := by
  induction n using Nat.strong_induction_on with
  | _ n ih =>
    by_cases h : n < 10
    · rw [formatNat_small n h]
      intro c hc
      have : c = hexDigit n := by simpa using hc
      rw [this]; exact isDigit_hexDigit n h
    · rw [formatNat_step n h]
      intro c hc
      rcases List.mem_append.mp hc with hc | hc
      · exact ih (n / 10) (by omega) c hc
      · have : c = hexDigit (n % 10) := by simpa using hc
        rw [this]; exact isDigit_hexDigit _ (by omega)

/-- The digits of a positive number start with a digit other than `0`; the
digits of zero are `0`. -/
theorem formatNat_head (n : Nat) :
    ∃ c t, formatNat n = c :: t ∧ isDigit c = true ∧ (c = '0' → t = []) := by
  induction n using Nat.strong_induction_on with
  | _ n ih =>
    by_cases h : n < 10
    · exact ⟨hexDigit n, [], formatNat_small n h, isDigit_hexDigit n h, fun _ => rfl⟩
    · obtain ⟨c, t, ht, hd, hz⟩ := ih (n / 10) (by omega)
      refine ⟨c, t ++ [hexDigit (n % 10)], by rw [formatNat_step n h, ht]; rfl, hd, ?_⟩
      intro hc
      exfalso
      have ht2 := hz hc
      subst hc
      subst ht2
      by_cases h2 : n / 10 < 10
      · rw [formatNat_small _ h2] at ht
        have h0 : hexDigit (n / 10) = '0' := by simpa using ht
        exact hexDigit_ne_zero (n / 10) h2 (by omega) h0
      · rw [formatNat_step _ h2] at ht
        have hlen := congrArg List.length ht
        obtain ⟨c2, t2, ht3, _, _⟩ := ih (n / 10 / 10) (by omega)
        rw [ht3] at hlen
        simp at hlen

theorem digitsValue_append (ds : List Char) (c : Char) :
    digitsValue (ds ++ [c]) = digitsValue ds * 10 + (c.toNat - 48) := by
  simp [digitsValue, List.foldl_append]

theorem digitsValue_formatNat (n : Nat) : digitsValue (formatNat n) = n := by
  induction n using Nat.strong_induction_on with
  | _ n ih =>
    by_cases h : n < 10
    · rw [formatNat_small n h]
      simp only [digitsValue, List.foldl_cons, List.foldl_nil]
      rw [hexDigit_value n h]; omega
    · rw [formatNat_step n h, digitsValue_append, ih (n / 10) (by omega),
        hexDigit_value _ (by omega)]
      omega

theorem stop_not_digit (rest : List Char) (h : Stop rest) :
    rest.takeWhile isDigit = [] ∧ rest.dropWhile isDigit = rest := by
  cases rest with
  | nil => simp
  | cons c t =>
    have hc : c = ',' ∨ c = '\n' := h c (by simp)
    have hd : isDigit c = false := by rcases hc with e | e <;> subst e <;> decide
    simp [List.takeWhile, List.dropWhile, hd]

theorem scanExponent_stop (rest : List Char) (h : Stop rest) :
    scanExponent rest = some ([], rest) := by
  cases rest with
  | nil => rfl
  | cons c t =>
    have hc : c = ',' ∨ c = '\n' := h c (by simp)
    have hne : ¬ (c = 'e' ∨ c = 'E') := by rcases hc with e | e <;> subst e <;> decide
    simp only [scanExponent, hne, if_false]

theorem scanFraction_stop (rest : List Char) (h : Stop rest) :
    scanFraction rest = some ([], rest) := by
  cases rest with
  | nil => rfl
  | cons c t =>
    have hc : c = ',' ∨ c = '\n' := h c (by simp)
    have hne : ¬ (c = '.') := by rcases hc with e | e <;> subst e <;> decide
    simp only [scanFraction, hne, if_false]
    exact scanExponent_stop _ h

theorem takeWhile_digits_append (ds rest : List Char) (hds : ∀ c ∈ ds, isDigit c = true)
    (h : Stop rest) :
    (ds ++ rest).takeWhile isDigit = ds ∧ (ds ++ rest).dropWhile isDigit = rest := by
  induction ds with
  | nil => simpa using stop_not_digit rest h
  | cons c t ih =>
    have hc : isDigit c = true := hds c (by simp)
    have ht := ih (fun x hx => hds x (by simp [hx]))
    simp [List.takeWhile, List.dropWhile, hc, ht.1, ht.2]

theorem scanUnsigned_formatNat (n : Nat) (rest : List Char) (h : Stop rest) :
    scanUnsigned (formatNat n ++ rest) = some (formatNat n, rest) := by
  obtain ⟨c, t, ht, hd, hz⟩ := formatNat_head n
  have hall := formatNat_all_digits n
  rw [ht] at hall ⊢
  simp only [List.cons_append, scanUnsigned]
  by_cases hc : c = '0'
  · have ht0 := hz hc
    subst ht0
    simp only [hc, if_true, List.nil_append, scanFraction_stop rest h]
  · have htw := takeWhile_digits_append t rest (fun x hx => hall x (by simp [hx])) h
    simp only [hc, if_false, hd, if_true, htw.1, htw.2, scanFraction_stop rest h,
      List.append_nil]

theorem scanNumber_formatInt (i : Int) (rest : List Char) (h : Stop rest) :
    scanNumber (formatInt i ++ rest) = some (formatInt i, rest) := by
  unfold formatInt
  by_cases hneg : i < 0
  · simp only [hneg, if_true, List.cons_append, scanNumber,
      scanUnsigned_formatNat _ rest h]
  · simp only [hneg, if_false]
    obtain ⟨c, t, ht, hd, _⟩ := formatNat_head i.natAbs
    have hc : c ≠ '-' := by
      intro e; subst e; revert hd; decide
    have hscan := scanUnsigned_formatNat i.natAbs rest h
    rw [ht] at hscan ⊢
    simp only [List.cons_append, scanNumber, hc, if_false] at hscan ⊢
    exact hscan

theorem parseIntLiteral_formatInt (i : Int)
    (hlo : -9223372036854775808 ≤ i) (hhi : i ≤ 9223372036854775807) :
    parseIntLiteral (formatInt i) = some i := by
  obtain ⟨c, t, ht, hd, _⟩ := formatNat_head i.natAbs
  have hall := formatNat_all_digits i.natAbs
  have hval := digitsValue_formatNat i.natAbs
  have hc : c ≠ '-' := by
    intro e; subst e; revert hd; decide
  unfold formatInt
  by_cases hneg : i < 0
  · simp only [hneg, if_true, parseIntLiteral, decide_True]
    have hne : formatNat i.natAbs ≠ [] := by rw [ht]; simp
    have hall2 : (formatNat i.natAbs).all isDigit = true := by
      rw [List.all_eq_true]; exact hall
    have hv : -(↑(digitsValue (formatNat i.natAbs)) : Int) = i := by
      rw [hval]; omega
    simp only [ne_eq, hne, not_false_eq_true, hall2, and_self, if_true, hv]
    rw [if_pos ⟨hlo, hhi⟩]
  · rw [if_neg hneg]
    have hall2 : (c :: t).all isDigit = true := by
      rw [List.all_eq_true]; rw [ht] at hall; exact hall
    have hv : (↑(digitsValue (c :: t)) : Int) = i := by
      rw [← ht, hval]; omega
    rw [ht]
    simp only [parseIntLiteral, hc, if_false, decide_False, ne_eq, reduceCtorEq,
      not_false_eq_true, hall2, and_self, if_true, hv, Bool.false_eq_true]
    rw [if_pos ⟨hlo, hhi⟩]

/-! ### The parser on the text of the encoder -/

mutual
theorem size_pos : ∀ v : JSON, 1 ≤ size v
  | .null => by simp [size]
  | .bool _ => by simp [size]
  | .number _ => by simp [size]
  | .string _ => by simp [size]
  | .array _ => by simp [size]
  | .object _ => by simp [size]
theorem sizeList_pos : ∀ es : JSONList, 1 ≤ sizeList es
  | .nil => by simp [sizeList]
  | .cons e es => by
    have := size_pos e
    simp only [sizeList]; omega
theorem sizeMembers_pos : ∀ ms : JSONMembers, 1 ≤ sizeMembers ms
  | .nil => by simp [sizeMembers]
  | .cons _ v ms => by simp only [sizeMembers]; omega
end

theorem skipWs_cons (c : Char) (t : List Char) (h : isWs c = false) :
    skipWs (c :: t) = c :: t := by
  simp [skipWs, List.dropWhile, h]

theorem skipWs_spaces (k : Nat) (X : List Char) :
    skipWs (List.replicate k ' ' ++ X) = skipWs X := by
  induction k with
  | zero => rfl
  | succ k ih =>
    have hs : isWs ' ' = true := by decide
    simp only [List.replicate_succ, List.cons_append, skipWs, List.dropWhile, hs]
    exact ih

theorem skipWs_newline (d : Nat) (X : List Char) : skipWs (newline d ++ X) = skipWs X := by
  have hn : isWs '\n' = true := by decide
  simp only [newline, List.cons_append, skipWs, List.dropWhile, hn]
  exact skipWs_spaces _ X

theorem skipWs_newline_cons (d : Nat) (c : Char) (t : List Char) (h : isWs c = false) :
    skipWs (newline d ++ c :: t) = c :: t := by
  rw [skipWs_newline, skipWs_cons c t h]

/-- A value starts with a rune that is not white space and closes no array
or object. -/
theorem renderJSON_head (se : Bool) (v : JSON) (d : Nat) (hv : Printable v) :
    ∃ c t, renderJSON se v d = c :: t ∧ isWs c = false ∧ c ≠ ']' ∧ c ≠ closeBraceChar := by
  cases v with
  | null => exact ⟨'n', _, rfl, by decide, by decide, by decide⟩
  | bool b =>
    cases b
    · exact ⟨'f', _, rfl, by decide, by decide, by decide⟩
    · exact ⟨'t', _, rfl, by decide, by decide, by decide⟩
  | number literal =>
    obtain ⟨i, hi⟩ := hv
    subst hi
    simp only [renderJSON, formatInt]
    by_cases hneg : i < 0
    · exact ⟨'-', _, by rw [if_pos hneg], by decide, by decide, by decide⟩
    · obtain ⟨c, t, ht, hd, _⟩ := formatNat_head i.natAbs
      refine ⟨c, t, by rw [if_neg hneg, ht], ?_, ?_, ?_⟩
      · simp only [isDigit, Bool.and_eq_true, decide_eq_true_eq] at hd
        have h1 : c ≠ ' ' := toNat_ne_of_ne _ _ (by
          have : (' ' : Char).toNat = 32 := by decide
          omega)
        have h2 : c ≠ '\t' := toNat_ne_of_ne _ _ (by
          have : ('\t' : Char).toNat = 9 := by decide
          omega)
        have h3 : c ≠ '\r' := toNat_ne_of_ne _ _ (by
          have : ('\r' : Char).toNat = 13 := by decide
          omega)
        have h4 : c ≠ '\n' := toNat_ne_of_ne _ _ (by
          have : ('\n' : Char).toNat = 10 := by decide
          omega)
        simp [isWs, h1, h2, h3, h4]
      · intro e; subst e; revert hd; decide
      · intro e; subst e; revert hd; decide
  | string s =>
    exact ⟨quoteChar, _, rfl, by decide, by decide, by decide⟩
  | array es =>
    cases es with
    | nil => exact ⟨'[', _, rfl, by decide, by decide, by decide⟩
    | cons e es => exact ⟨'[', _, rfl, by decide, by decide, by decide⟩
  | object ms =>
    cases ms with
    | nil => exact ⟨openBraceChar, _, rfl, by decide, by decide, by decide⟩
    | cons k v ms =>
      exact ⟨openBraceChar, _, rfl, by decide, by decide, by decide⟩

theorem formatInt_head (i : Int) :
    ∃ c t, formatInt i = c :: t ∧ (c = '-' ∨ isDigit c = true) := by
  unfold formatInt
  by_cases hneg : i < 0
  · exact ⟨'-', _, by rw [if_pos hneg], Or.inl rfl⟩
  · obtain ⟨c, t, ht, hd, _⟩ := formatNat_head i.natAbs
    exact ⟨c, t, by rw [if_neg hneg, ht], Or.inr hd⟩

theorem parseValue_null (f depth : Nat) (rest : List Char) :
    parseValue (f + 1) depth ('n' :: 'u' :: 'l' :: 'l' :: rest) = some (.null, rest) := by
  simp [parseValue, dropWord, quoteChar, openBraceChar, List.isPrefixOf]

theorem parseValue_true (f depth : Nat) (rest : List Char) :
    parseValue (f + 1) depth ('t' :: 'r' :: 'u' :: 'e' :: rest) = some (.bool true, rest) := by
  simp [parseValue, dropWord, quoteChar, openBraceChar, List.isPrefixOf]

theorem parseValue_false (f depth : Nat) (rest : List Char) :
    parseValue (f + 1) depth ('f' :: 'a' :: 'l' :: 's' :: 'e' :: rest)
      = some (.bool false, rest) := by
  simp [parseValue, dropWord, quoteChar, openBraceChar, List.isPrefixOf]

theorem parseValue_string (se : Bool) (f depth : Nat) (s rest : List Char) :
    parseValue (f + 1) depth (encodeString se s ++ rest) = some (.string s, rest) := by
  have h := parseStringBody_escapeString se s rest
  simp only [encodeString, List.cons_append, List.append_assoc, List.singleton_append,
    List.nil_append, parseValue, if_true, h]

theorem parseValue_number (f depth : Nat) (i : Int) (rest : List Char) (hs : Stop rest) :
    parseValue (f + 1) depth (formatInt i ++ rest) = some (.number (formatInt i), rest) := by
  have hscan := scanNumber_formatInt i rest hs
  obtain ⟨c, t, ht, hc⟩ := formatInt_head i
  rw [ht] at hscan ⊢
  have h1 : c ≠ quoteChar := by
    rcases hc with e | hd
    · subst e; decide
    · intro e; subst e; revert hd; decide
  have h2 : c ≠ '[' := by
    rcases hc with e | hd
    · subst e; decide
    · intro e; subst e; revert hd; decide
  have h3 : c ≠ openBraceChar := by
    rcases hc with e | hd
    · subst e; decide
    · intro e; subst e; revert hd; decide
  have h4 : c ≠ 't' := by
    rcases hc with e | hd
    · subst e; decide
    · intro e; subst e; revert hd; decide
  have h5 : c ≠ 'f' := by
    rcases hc with e | hd
    · subst e; decide
    · intro e; subst e; revert hd; decide
  have h6 : c ≠ 'n' := by
    rcases hc with e | hd
    · subst e; decide
    · intro e; subst e; revert hd; decide
  simp only [List.cons_append] at hscan ⊢
  simp only [parseValue, h1, h2, h3, h4, h5, h6, if_false, hscan]

theorem parseValue_array_nil (f depth : Nat) (rest : List Char)
    (hd : depth + 1 ≤ maxNestingDepth) :
    parseValue (f + 1) depth ('[' :: ']' :: rest) = some (.array .nil, rest) := by
  have h1 : ('[' : Char) ≠ quoteChar := by decide
  have h2 : ¬ (depth + 1 > maxNestingDepth) := by omega
  have h3 : skipWs (']' :: rest) = ']' :: rest := skipWs_cons _ _ (by decide)
  simp only [parseValue, h1, h2, h3, if_false, if_true]

theorem parseValue_array_cons (f depth d : Nat) (c : Char) (t rest rest2 : List Char)
    (e : JSON) (es : JSONList)
    (hd : depth + 1 ≤ maxNestingDepth) (hws : isWs c = false) (hc : c ≠ ']')
    (h1 : parseValue f (depth + 1) (c :: t) = some (e, rest))
    (h2 : parseElems f (depth + 1) rest = some (es, rest2)) :
    parseValue (f + 1) depth ('[' :: (newline d ++ c :: t)) = some (.array (.cons e es), rest2) := by
  have hq : ('[' : Char) ≠ quoteChar := by decide
  have hdepth : ¬ (depth + 1 > maxNestingDepth) := by omega
  have hskip := skipWs_newline_cons d c t hws
  simp only [parseValue, hq, hdepth, hskip, hc, h1, h2, if_false, if_true]

theorem parseElems_close (f depth d : Nat) (rest : List Char) :
    parseElems (f + 1) depth (newline d ++ ']' :: rest) = some (.nil, rest) := by
  have hskip := skipWs_newline_cons d ']' rest (by decide)
  simp only [parseElems, hskip, if_true]

theorem parseElems_comma (f depth d : Nat) (c : Char) (t rest rest2 : List Char)
    (e : JSON) (es : JSONList) (hws : isWs c = false)
    (h1 : parseValue f depth (c :: t) = some (e, rest))
    (h2 : parseElems f depth rest = some (es, rest2)) :
    parseElems (f + 1) depth (',' :: (newline d ++ c :: t)) = some (.cons e es, rest2) := by
  have hskip0 : skipWs (',' :: (newline d ++ c :: t)) = ',' :: (newline d ++ c :: t) :=
    skipWs_cons _ _ (by decide)
  have hskip := skipWs_newline_cons d c t hws
  have hc : (',' : Char) ≠ ']' := by decide
  simp only [parseElems, hskip0, hskip, hc, h1, h2, if_false, if_true]

theorem parseMember_render (se : Bool) (f depth : Nat) (k : List Char) (c : Char)
    (t rest : List Char) (v : JSON) (hws : isWs c = false)
    (h1 : parseValue f depth (c :: t) = some (v, rest)) :
    parseMember (f + 1) depth (encodeString se k ++ (':' :: ' ' :: c :: t))
      = some (k, v, rest) := by
  have hk := parseStringBody_escapeString se k (':' :: ' ' :: c :: t)
  have hskip0 : skipWs (':' :: ' ' :: c :: t) = ':' :: ' ' :: c :: t :=
    skipWs_cons _ _ (by decide)
  have hskip : skipWs (' ' :: c :: t) = c :: t := by
    have hs : isWs ' ' = true := by decide
    simp only [skipWs, List.dropWhile, hs, hws]
  simp only [encodeString, List.cons_append, List.append_assoc, List.singleton_append,
    List.nil_append, parseMember, if_true, hk, hskip0, hskip, h1]

theorem parseValue_object_nil (f depth : Nat) (rest : List Char)
    (hd : depth + 1 ≤ maxNestingDepth) :
    parseValue (f + 1) depth (openBraceChar :: closeBraceChar :: rest)
      = some (.object .nil, rest) := by
  have h1 : openBraceChar ≠ quoteChar := by decide
  have h0 : openBraceChar ≠ '[' := by decide
  have h2 : ¬ (depth + 1 > maxNestingDepth) := by omega
  have h3 : skipWs (closeBraceChar :: rest) = closeBraceChar :: rest :=
    skipWs_cons _ _ (by decide)
  simp only [parseValue, h1, h0, h2, h3, if_false, if_true]

theorem parseValue_object_cons (f depth d : Nat) (t rest rest2 : List Char)
    (k : List Char) (v : JSON) (ms : JSONMembers)
    (hd : depth + 1 ≤ maxNestingDepth)
    (h1 : parseMember f (depth + 1) (quoteChar :: t) = some (k, v, rest))
    (h2 : parseMembers f (depth + 1) rest = some (ms, rest2)) :
    parseValue (f + 1) depth (openBraceChar :: (newline d ++ quoteChar :: t))
      = some (.object (.cons k v ms), rest2) := by
  have hq : openBraceChar ≠ quoteChar := by decide
  have h0 : openBraceChar ≠ '[' := by decide
  have hc : quoteChar ≠ closeBraceChar := by decide
  have hdepth : ¬ (depth + 1 > maxNestingDepth) := by omega
  have hskip := skipWs_newline_cons d quoteChar t (by decide)
  simp only [parseValue, hq, h0, hdepth, hskip, hc, h1, h2, if_false, if_true]

theorem parseMembers_close (f depth d : Nat) (rest : List Char) :
    parseMembers (f + 1) depth (newline d ++ closeBraceChar :: rest) = some (.nil, rest) := by
  have hskip := skipWs_newline_cons d closeBraceChar rest (by decide)
  simp only [parseMembers, hskip, if_true]

theorem parseMembers_comma (f depth d : Nat) (t rest rest2 : List Char)
    (k : List Char) (v : JSON) (ms : JSONMembers)
    (h1 : parseMember f depth (quoteChar :: t) = some (k, v, rest))
    (h2 : parseMembers f depth rest = some (ms, rest2)) :
    parseMembers (f + 1) depth (',' :: (newline d ++ quoteChar :: t))
      = some (.cons k v ms, rest2) := by
  have hskip0 : skipWs (',' :: (newline d ++ quoteChar :: t))
      = ',' :: (newline d ++ quoteChar :: t) := skipWs_cons _ _ (by decide)
  have hskip := skipWs_newline_cons d quoteChar t (by decide)
  have hc : (',' : Char) ≠ closeBraceChar := by decide
  simp only [parseMembers, hskip0, hskip, hc, h1, h2, if_false, if_true]

theorem stop_renderElems (se : Bool) (es : JSONList) (d1 d : Nat) (X : List Char) :
    Stop (renderElems se es d1 ++ (newline d ++ X)) := by
  cases es with
  | nil =>
    intro c hc
    simp only [renderElems, newline, List.nil_append, List.cons_append, List.head?_cons,
      Option.mem_def, Option.some.injEq] at hc
    exact Or.inr hc.symm
  | cons e es =>
    intro c hc
    simp only [renderElems, List.cons_append, List.head?_cons, Option.mem_def,
      Option.some.injEq] at hc
    exact Or.inl hc.symm

theorem stop_renderMembers (se : Bool) (ms : JSONMembers) (d1 d : Nat) (X : List Char) :
    Stop (renderMembers se ms d1 ++ (newline d ++ X)) := by
  cases ms with
  | nil =>
    intro c hc
    simp only [renderMembers, newline, List.nil_append, List.cons_append, List.head?_cons,
      Option.mem_def, Option.some.injEq] at hc
    exact Or.inr hc.symm
  | cons k v ms =>
    intro c hc
    simp only [renderMembers, List.cons_append, List.head?_cons, Option.mem_def,
      Option.some.injEq] at hc
    exact Or.inl hc.symm

mutual
/-- The parser reads back every document the encoder writes: given enough
fuel and room under the nesting limit, it returns the document and the text
behind it. -/
theorem parseValue_render (se : Bool) : ∀ (v : JSON) (d fuel depth : Nat) (rest : List Char),
    Printable v → Stop rest → size v ≤ fuel → depth + nesting v ≤ maxNestingDepth →
    parseValue fuel depth (renderJSON se v d ++ rest) = some (v, rest)
  | .null, d, fuel, depth, rest, _, _, hf, _ => by
    obtain ⟨f, rfl⟩ : ∃ f, fuel = f + 1 := ⟨fuel - 1, by simp only [size] at hf; omega⟩
    exact parseValue_null f depth rest
  | .bool true, d, fuel, depth, rest, _, _, hf, _ => by
    obtain ⟨f, rfl⟩ : ∃ f, fuel = f + 1 := ⟨fuel - 1, by simp only [size] at hf; omega⟩
    exact parseValue_true f depth rest
  | .bool false, d, fuel, depth, rest, _, _, hf, _ => by
    obtain ⟨f, rfl⟩ : ∃ f, fuel = f + 1 := ⟨fuel - 1, by simp only [size] at hf; omega⟩
    exact parseValue_false f depth rest
  | .number literal, d, fuel, depth, rest, hp, hs, hf, _ => by
    obtain ⟨f, rfl⟩ : ∃ f, fuel = f + 1 := ⟨fuel - 1, by simp only [size] at hf; omega⟩
    obtain ⟨i, hi⟩ := hp
    subst hi
    exact parseValue_number f depth i rest hs
  | .string s, d, fuel, depth, rest, _, _, hf, _ => by
    obtain ⟨f, rfl⟩ : ∃ f, fuel = f + 1 := ⟨fuel - 1, by simp only [size] at hf; omega⟩
    exact parseValue_string se f depth s rest
  | .array .nil, d, fuel, depth, rest, _, _, hf, hn => by
    obtain ⟨f, rfl⟩ : ∃ f, fuel = f + 1 := ⟨fuel - 1, by simp only [size] at hf; omega⟩
    simp only [nesting] at hn
    exact parseValue_array_nil f depth rest (by omega)
  | .array (.cons e es), d, fuel, depth, rest, hp, _, hf, hn => by
    obtain ⟨f, rfl⟩ : ∃ f, fuel = f + 1 := ⟨fuel - 1, by simp only [size] at hf; omega⟩
    simp only [size, sizeList] at hf
    simp only [nesting, nestingList] at hn
    have hse := size_pos e
    have hsl := sizeList_pos es
    have hpe : Printable e := hp.1
    have hpl : PrintableList es := hp.2
    obtain ⟨c, t, hct, hws, hc, _⟩ := renderJSON_head se e (d + 1) hpe
    have h1 := parseValue_render se e (d + 1) f (depth + 1)
      (renderElems se es (d + 1) ++ (newline d ++ ']' :: rest)) hpe
      (stop_renderElems se es (d + 1) d _) (by omega) (by omega)
    have h2 := parseElems_render se es d f (depth + 1) rest hpl (by omega) (by omega)
    rw [hct] at h1
    have h := parseValue_array_cons f depth (d + 1) c
      (t ++ (renderElems se es (d + 1) ++ (newline d ++ ']' :: rest))) _ _ e es
      (by omega) hws hc h1 h2
    simp only [renderJSON, hct, List.cons_append, List.append_assoc, List.singleton_append,
      List.nil_append] at h ⊢
    exact h
  | .object .nil, d, fuel, depth, rest, _, _, hf, hn => by
    obtain ⟨f, rfl⟩ : ∃ f, fuel = f + 1 := ⟨fuel - 1, by simp only [size] at hf; omega⟩
    simp only [nesting] at hn
    exact parseValue_object_nil f depth rest (by omega)
  | .object (.cons k v ms), d, fuel, depth, rest, hp, _, hf, hn => by
    obtain ⟨f, rfl⟩ : ∃ f, fuel = f + 1 := ⟨fuel - 1, by simp only [size] at hf; omega⟩
    simp only [size, sizeMembers] at hf
    simp only [nesting, nestingMembers] at hn
    have hsv := size_pos v
    have hsm := sizeMembers_pos ms
    obtain ⟨g, rfl⟩ : ∃ g, f = g + 1 := ⟨f - 1, by omega⟩
    have hpv : Printable v := hp.1
    have hpm : PrintableMembers ms := hp.2
    obtain ⟨c, t, hct, hws, _, _⟩ := renderJSON_head se v (d + 1) hpv
    have h1 := parseValue_render se v (d + 1) g (depth + 1)
      (renderMembers se ms (d + 1) ++ (newline d ++ closeBraceChar :: rest)) hpv
      (stop_renderMembers se ms (d + 1) d _) (by omega) (by omega)
    have h2 := parseMembers_render se ms d (g + 1) (depth + 1) rest hpm (by omega) (by omega)
    rw [hct] at h1
    have hm := parseMember_render se g (depth + 1) k c
      (t ++ (renderMembers se ms (d + 1) ++ (newline d ++ closeBraceChar :: rest))) _ v hws h1
    have h := parseValue_object_cons (g + 1) depth (d + 1)
      (escapeString se k ++ quoteChar :: ':' :: ' ' :: c ::
        (t ++ (renderMembers se ms (d + 1) ++ (newline d ++ closeBraceChar :: rest))))
      _ _ k v ms (by omega)
      (by simpa only [encodeString, List.cons_append, List.append_assoc,
        List.singleton_append, List.nil_append] using hm) h2
    simp only [renderJSON, hct, encodeString, List.cons_append, List.append_assoc,
      List.singleton_append, List.nil_append] at h ⊢
    exact h
theorem parseElems_render (se : Bool) : ∀ (es : JSONList) (d fuel depth : Nat)
    (rest : List Char),
    PrintableList es → sizeList es ≤ fuel → depth + nestingList es ≤ maxNestingDepth →
    parseElems fuel depth (renderElems se es (d + 1) ++ (newline d ++ ']' :: rest))
      = some (es, rest)
  | .nil, d, fuel, depth, rest, _, hf, _ => by
    obtain ⟨f, rfl⟩ : ∃ f, fuel = f + 1 := ⟨fuel - 1, by simp only [sizeList] at hf; omega⟩
    exact parseElems_close f depth d rest
  | .cons e es, d, fuel, depth, rest, hp, hf, hn => by
    simp only [sizeList] at hf
    simp only [nestingList] at hn
    have hse := size_pos e
    have hsl := sizeList_pos es
    obtain ⟨f, rfl⟩ : ∃ f, fuel = f + 1 := ⟨fuel - 1, by omega⟩
    have hpe : Printable e := hp.1
    have hpl : PrintableList es := hp.2
    obtain ⟨c, t, hct, hws, _, _⟩ := renderJSON_head se e (d + 1) hpe
    have h1 := parseValue_render se e (d + 1) f depth
      (renderElems se es (d + 1) ++ (newline d ++ ']' :: rest)) hpe
      (stop_renderElems se es (d + 1) d _) (by omega) (by omega)
    have h2 := parseElems_render se es d f depth rest hpl (by omega) (by omega)
    rw [hct] at h1
    have h := parseElems_comma f depth (d + 1) c
      (t ++ (renderElems se es (d + 1) ++ (newline d ++ ']' :: rest))) _ _ e es hws h1 h2
    simp only [renderElems, hct, List.cons_append, List.append_assoc, List.singleton_append,
      List.nil_append] at h ⊢
    exact h
theorem parseMembers_render (se : Bool) : ∀ (ms : JSONMembers) (d fuel depth : Nat)
    (rest : List Char),
    PrintableMembers ms → sizeMembers ms ≤ fuel →
    depth + nestingMembers ms ≤ maxNestingDepth →
    parseMembers fuel depth (renderMembers se ms (d + 1) ++ (newline d ++ closeBraceChar :: rest))
      = some (ms, rest)
  | .nil, d, fuel, depth, rest, _, hf, _ => by
    obtain ⟨f, rfl⟩ : ∃ f, fuel = f + 1 := ⟨fuel - 1, by simp only [sizeMembers] at hf; omega⟩
    exact parseMembers_close f depth d rest
  | .cons k v ms, d, fuel, depth, rest, hp, hf, hn => by
    simp only [sizeMembers] at hf
    simp only [nestingMembers] at hn
    have hsv := size_pos v
    have hsm := sizeMembers_pos ms
    obtain ⟨f, rfl⟩ : ∃ f, fuel = f + 1 := ⟨fuel - 1, by omega⟩
    obtain ⟨g, rfl⟩ : ∃ g, f = g + 1 := ⟨f - 1, by omega⟩
    have hpv : Printable v := hp.1
    have hpm : PrintableMembers ms := hp.2
    obtain ⟨c, t, hct, hws, _, _⟩ := renderJSON_head se v (d + 1) hpv
    have h1 := parseValue_render se v (d + 1) g depth
      (renderMembers se ms (d + 1) ++ (newline d ++ closeBraceChar :: rest)) hpv
      (stop_renderMembers se ms (d + 1) d _) (by omega) (by omega)
    have h2 := parseMembers_render se ms d (g + 1) depth rest hpm (by omega) (by omega)
    rw [hct] at h1
    have hm := parseMember_render se g depth k c
      (t ++ (renderMembers se ms (d + 1) ++ (newline d ++ closeBraceChar :: rest))) _ v hws h1
    have h := parseMembers_comma (g + 1) depth (d + 1)
      (escapeString se k ++ quoteChar :: ':' :: ' ' :: c ::
        (t ++ (renderMembers se ms (d + 1) ++ (newline d ++ closeBraceChar :: rest))))
      _ _ k v ms
      (by simpa only [encodeString, List.cons_append, List.append_assoc,
        List.singleton_append, List.nil_append] using hm) h2
    simp only [renderMembers, hct, encodeString, List.cons_append, List.append_assoc,
      List.singleton_append, List.nil_append] at h ⊢
    exact h
end

theorem length_newline (d : Nat) : (newline d).length = 1 + 3 * d := by
  simp [newline]; omega

theorem length_encodeString (se : Bool) (s : List Char) : 2 ≤ (encodeString se s).length := by
  simp [encodeString]

mutual
theorem size_le_length (se : Bool) : ∀ (v : JSON) (d : Nat), Printable v →
    size v ≤ (renderJSON se v d).length
  | .null, d, _ => by simp [size, renderJSON]
  | .bool true, d, _ => by simp [size, renderJSON]
  | .bool false, d, _ => by simp [size, renderJSON]
  | .number literal, d, hp => by
    obtain ⟨i, hi⟩ := hp
    obtain ⟨c, t, ht, _⟩ := formatInt_head i
    simp [size, renderJSON, hi, ht]
  | .string s, d, _ => by
    have := length_encodeString se s
    simp only [size, renderJSON]; omega
  | .array .nil, d, _ => by simp [size, sizeList, renderJSON]
  | .array (.cons e es), d, hp => by
    have h1 := size_le_length se e (d + 1) hp.1
    have h2 := sizeList_le_length se es (d + 1) hp.2
    simp only [size, sizeList, renderJSON, List.length_cons, List.length_append, length_newline,
      List.length_nil]
    omega
  | .object .nil, d, _ => by simp [size, sizeMembers, renderJSON]
  | .object (.cons k v ms), d, hp => by
    have h1 := size_le_length se v (d + 1) hp.1
    have h2 := sizeMembers_le_length se ms (d + 1) hp.2
    have h3 := length_encodeString se k
    simp only [size, sizeMembers, renderJSON, List.length_cons, List.length_append,
      length_newline, List.length_nil]
    omega
theorem sizeList_le_length (se : Bool) : ∀ (es : JSONList) (d : Nat), PrintableList es →
    sizeList es ≤ (renderElems se es d).length + 1
  | .nil, d, _ => by simp [sizeList, renderElems]
  | .cons e es, d, hp => by
    have h1 := size_le_length se e d hp.1
    have h2 := sizeList_le_length se es d hp.2
    simp only [sizeList, renderElems, List.length_cons, List.length_append, length_newline]
    omega
theorem sizeMembers_le_length (se : Bool) : ∀ (ms : JSONMembers) (d : Nat),
    PrintableMembers ms → sizeMembers ms ≤ (renderMembers se ms d).length + 1
  | .nil, d, _ => by simp [sizeMembers, renderMembers]
  | .cons k v ms, d, hp => by
    have h1 := size_le_length se v d hp.1
    have h2 := sizeMembers_le_length se ms d hp.2
    have h3 := length_encodeString se k
    simp only [sizeMembers, renderMembers, List.length_cons, List.length_append,
      length_newline]
    omega
end

/-- The parser reads back the whole text the encoder writes for a document
that nests no deeper than the limit. -/
theorem parseJSON_render (se : Bool) (v : JSON) (hp : Printable v)
    (hn : nesting v ≤ maxNestingDepth) : parseJSON (renderJSON se v 0) = some v := by
  obtain ⟨c, t, hct, hws, _, _⟩ := renderJSON_head se v 0 hp
  have hstop : Stop [] := by intro c hc; simp at hc
  have h := parseValue_render se v 0 ((renderJSON se v 0).length + 1) 0 [] hp hstop
    (by have := size_le_length se v 0 hp; omega) (by omega)
  rw [List.append_nil] at h
  have hskip : skipWs (renderJSON se v 0) = renderJSON se v 0 := by
    rw [hct]; exact skipWs_cons c t hws
  have hnil : skipWs [] = [] := rfl
  simp only [parseJSON, hskip, h, hnil, if_true]

theorem printable_strings (xs : List String) : PrintableList (stringsToJSON xs) := by
  induction xs with
  | nil => simp [stringsToJSON, PrintableList]
  | cons s rest ih => simp [stringsToJSON, PrintableList, Printable, ih]

theorem printable_compliances (cs : List Compliance) :
    PrintableList (compliancesToJSON cs) := by
  induction cs with
  | nil => simp [compliancesToJSON, PrintableList]
  | cons c rest ih =>
    simp [compliancesToJSON, PrintableList, Printable, PrintableMembers, complianceToJSON, ih]

theorem printable_stringSlice (xs : Option (List String)) :
    Printable (stringSliceToJSON xs) := by
  cases xs with
  | none => simp [stringSliceToJSON, Printable]
  | some l => simp [stringSliceToJSON, Printable, printable_strings]

theorem printable_finding (f : Finding) : Printable (findingToJSON f) := by
  have hc : Printable (match f.Compliance with
      | none => JSON.null
      | some cs => JSON.array (compliancesToJSON cs)) := by
    cases f.Compliance with
    | none => simp [Printable]
    | some cs => simp [Printable, printable_compliances]
  simp only [findingToJSON, Printable, PrintableMembers, printable_stringSlice, hc, and_self,
    and_true, true_and]
  exact ⟨⟨_, rfl⟩, ⟨_, rfl⟩⟩

theorem nesting_strings (xs : List String) : nestingList (stringsToJSON xs) = 0 := by
  induction xs with
  | nil => simp [stringsToJSON, nestingList]
  | cons s rest ih => simp [stringsToJSON, nestingList, nesting, ih]

theorem nesting_compliances (cs : List Compliance) :
    nestingList (compliancesToJSON cs) ≤ 1 := by
  induction cs with
  | nil => simp [compliancesToJSON, nestingList]
  | cons c rest ih =>
    simp [compliancesToJSON, nestingList, nesting, nestingMembers, complianceToJSON, ih]

theorem nesting_stringSlice (xs : Option (List String)) :
    nesting (stringSliceToJSON xs) ≤ 1 := by
  cases xs with
  | none => simp [stringSliceToJSON, nesting]
  | some l => simp [stringSliceToJSON, nesting, nesting_strings]

theorem nesting_finding (f : Finding) : nesting (findingToJSON f) ≤ 3 := by
  have hc : nesting (match f.Compliance with
      | none => JSON.null
      | some cs => JSON.array (compliancesToJSON cs)) ≤ 2 := by
    cases f.Compliance with
    | none => simp [nesting]
    | some cs =>
      have := nesting_compliances cs
      simp only [nesting]; omega
  have h1 := nesting_stringSlice f.Items
  have h2 := nesting_stringSlice f.References
  simp only [findingToJSON, nesting, nestingMembers]
  omega

/-! ### The decoder on the document of the encoder -/

theorem decodeString_string (s old : String) : decodeString (.string s.data) old = .ok s := rfl

theorem decodeInt_formatInt (i old : Int)
    (hlo : -9223372036854775808 ≤ i) (hhi : i ≤ 9223372036854775807) :
    decodeInt (.number (formatInt i)) old = .ok i := by
  simp only [decodeInt, parseIntLiteral_formatInt i hlo hhi]

theorem decodeStringElems_strings (xs : List String) :
    decodeStringElems (stringsToJSON xs) = .ok xs := by
  induction xs with
  | nil => rfl
  | cons s rest ih => simp only [stringsToJSON, decodeStringElems, decodeString_string, ih]

theorem decodeStringSlice_slice (xs : Option (List String)) :
    decodeStringSlice (stringSliceToJSON xs) = .ok xs := by
  cases xs with
  | none => rfl
  | some l => simp only [stringSliceToJSON, decodeStringSlice, decodeStringElems_strings]

theorem decodeCompliance_compliance (c old : Compliance) :
    decodeCompliance (complianceToJSON c) old = .ok c := by
  unfold complianceToJSON decodeCompliance
  simp only [decodeComplianceMembers]
  rw [if_pos (by decide), decodeString_string]
  simp only []
  rw [if_neg (by decide), if_pos (by decide), decodeString_string]
  simp only []
  rw [if_neg (by decide), if_neg (by decide), if_pos (by decide), decodeString_string]

theorem decodeComplianceElems_compliances (cs : List Compliance) :
    decodeComplianceElems (compliancesToJSON cs) = .ok cs := by
  induction cs with
  | nil => rfl
  | cons c rest ih =>
    simp only [compliancesToJSON, decodeComplianceElems, decodeCompliance_compliance, ih]

theorem decodeCompliancePtr_ptr (cs : Option (List Compliance)) :
    decodeCompliancePtr (match cs with
      | none => JSON.null
      | some l => JSON.array (compliancesToJSON l)) = .ok cs := by
  cases cs with
  | none => rfl
  | some l => simp only [decodeCompliancePtr, decodeComplianceElems_compliances]

theorem decodeFindingMember_checked_items (v : JSON) (f : Finding) :
    decodeFindingMember ['c', 'h', 'e', 'c', 'k', 'e', 'd', '_', 'i', 't', 'e', 'm', 's'] v f
      = (match decodeInt v f.CheckedItems with
         | .error err => .error err
         | .ok x => .ok { f with CheckedItems := x }) := by
  unfold decodeFindingMember
  rw [if_pos (by decide)]

theorem decodeFindingMember_compliance (v : JSON) (f : Finding) :
    decodeFindingMember ['c', 'o', 'm', 'p', 'l', 'i', 'a', 'n', 'c', 'e'] v f
      = (match decodeCompliancePtr v with
         | .error err => .error err
         | .ok x => .ok { f with Compliance := x }) := by
  unfold decodeFindingMember
  rw [if_neg (by decide), if_pos (by decide)]

theorem decodeFindingMember_dashboard_name (v : JSON) (f : Finding) :
    decodeFindingMember ['d', 'a', 's', 'h', 'b', 'o', 'a', 'r', 'd', '_', 'n', 'a', 'm', 'e'] v f
      = (match decodeString v f.DashboardName with
         | .error err => .error err
         | .ok x => .ok { f with DashboardName := x }) := by
  unfold decodeFindingMember
  rw [if_neg (by decide), if_neg (by decide), if_pos (by decide)]

theorem decodeFindingMember_description (v : JSON) (f : Finding) :
    decodeFindingMember ['d', 'e', 's', 'c', 'r', 'i', 'p', 't', 'i', 'o', 'n'] v f
      = (match decodeString v f.Description with
         | .error err => .error err
         | .ok x => .ok { f with Description := x }) := by
  unfold decodeFindingMember
  rw [if_neg (by decide), if_neg (by decide), if_neg (by decide), if_pos (by decide)]

theorem decodeFindingMember_display_path (v : JSON) (f : Finding) :
    decodeFindingMember ['d', 'i', 's', 'p', 'l', 'a', 'y', '_', 'p', 'a', 't', 'h'] v f
      = (match decodeString v f.DisplayPath with
         | .error err => .error err
         | .ok x => .ok { f with DisplayPath := x }) := by
  unfold decodeFindingMember
  rw [if_neg (by decide), if_neg (by decide), if_neg (by decide), if_neg (by decide), if_pos (by decide)]

theorem decodeFindingMember_flagged_items (v : JSON) (f : Finding) :
    decodeFindingMember ['f', 'l', 'a', 'g', 'g', 'e', 'd', '_', 'i', 't', 'e', 'm', 's'] v f
      = (match decodeInt v f.FlaggedItems with
         | .error err => .error err
         | .ok x => .ok { f with FlaggedItems := x }) := by
  unfold decodeFindingMember
  rw [if_neg (by decide), if_neg (by decide), if_neg (by decide), if_neg (by decide), if_neg (by decide), if_pos (by decide)]

theorem decodeFindingMember_items (v : JSON) (f : Finding) :
    decodeFindingMember ['i', 't', 'e', 'm', 's'] v f
      = (match decodeStringSlice v with
         | .error err => .error err
         | .ok x => .ok { f with Items := x }) := by
  unfold decodeFindingMember
  rw [if_neg (by decide), if_neg (by decide), if_neg (by decide), if_neg (by decide), if_neg (by decide), if_neg (by decide), if_pos (by decide)]

theorem decodeFindingMember_level (v : JSON) (f : Finding) :
    decodeFindingMember ['l', 'e', 'v', 'e', 'l'] v f
      = (match decodeString v f.Level with
         | .error err => .error err
         | .ok x => .ok { f with Level := x }) := by
  unfold decodeFindingMember
  rw [if_neg (by decide), if_neg (by decide), if_neg (by decide), if_neg (by decide), if_neg (by decide), if_neg (by decide), if_neg (by decide), if_pos (by decide)]

theorem decodeFindingMember_path (v : JSON) (f : Finding) :
    decodeFindingMember ['p', 'a', 't', 'h'] v f
      = (match decodeString v f.Path with
         | .error err => .error err
         | .ok x => .ok { f with Path := x }) := by
  unfold decodeFindingMember
  rw [if_neg (by decide), if_neg (by decide), if_neg (by decide), if_neg (by decide), if_neg (by decide), if_neg (by decide), if_neg (by decide), if_neg (by decide), if_pos (by decide)]

theorem decodeFindingMember_rationale (v : JSON) (f : Finding) :
    decodeFindingMember ['r', 'a', 't', 'i', 'o', 'n', 'a', 'l', 'e'] v f
      = (match decodeString v f.Rationale with
         | .error err => .error err
         | .ok x => .ok { f with Rationale := x }) := by
  unfold decodeFindingMember
  rw [if_neg (by decide), if_neg (by decide), if_neg (by decide), if_neg (by decide), if_neg (by decide), if_neg (by decide), if_neg (by decide), if_neg (by decide), if_neg (by decide), if_pos (by decide)]

theorem decodeFindingMember_references (v : JSON) (f : Finding) :
    decodeFindingMember ['r', 'e', 'f', 'e', 'r', 'e', 'n', 'c', 'e', 's'] v f
      = (match decodeStringSlice v with
         | .error err => .error err
         | .ok x => .ok { f with References := x }) := by
  unfold decodeFindingMember
  rw [if_neg (by decide), if_neg (by decide), if_neg (by decide), if_neg (by decide), if_neg (by decide), if_neg (by decide), if_neg (by decide), if_neg (by decide), if_neg (by decide), if_neg (by decide), if_pos (by decide)]

theorem decodeFindingMember_remediation (v : JSON) (f : Finding) :
    decodeFindingMember ['r', 'e', 'm', 'e', 'd', 'i', 'a', 't', 'i', 'o', 'n'] v f
      = (match decodeString v f.Remediation with
         | .error err => .error err
         | .ok x => .ok { f with Remediation := x }) := by
  unfold decodeFindingMember
  rw [if_neg (by decide), if_neg (by decide), if_neg (by decide), if_neg (by decide), if_neg (by decide), if_neg (by decide), if_neg (by decide), if_neg (by decide), if_neg (by decide), if_neg (by decide), if_neg (by decide), if_pos (by decide)]

theorem decodeFindingMember_service (v : JSON) (f : Finding) :
    decodeFindingMember ['s', 'e', 'r', 'v', 'i', 'c', 'e'] v f
      = (match decodeString v f.Service with
         | .error err => .error err
         | .ok x => .ok { f with Service := x }) := by
  unfold decodeFindingMember
  rw [if_neg (by decide), if_neg (by decide), if_neg (by decide), if_neg (by decide), if_neg (by decide), if_neg (by decide), if_neg (by decide), if_neg (by decide), if_neg (by decide), if_neg (by decide), if_neg (by decide), if_neg (by decide), if_pos (by decide)]

theorem decodeFinding_finding (f : Finding)
    (hc : -9223372036854775808 ≤ f.CheckedItems ∧ f.CheckedItems ≤ 9223372036854775807)
    (hf : -9223372036854775808 ≤ f.FlaggedItems ∧ f.FlaggedItems ≤ 9223372036854775807) :
    decodeFinding (findingToJSON f) zeroFinding = .ok f := by
  simp only [findingToJSON, decodeFinding, decodeFindingMembers,
    decodeFindingMember_checked_items, decodeFindingMember_compliance,
    decodeFindingMember_dashboard_name, decodeFindingMember_description,
    decodeFindingMember_display_path, decodeFindingMember_flagged_items,
    decodeFindingMember_items, decodeFindingMember_level, decodeFindingMember_path,
    decodeFindingMember_rationale, decodeFindingMember_references,
    decodeFindingMember_remediation, decodeFindingMember_service,
    decodeInt_formatInt _ _ hc.1 hc.2, decodeInt_formatInt _ _ hf.1 hf.2,
    decodeString_string, decodeStringSlice_slice, decodeCompliancePtr_ptr]


/-! ## Claims -/

/-- C1: the list `loadFindings` returns is exactly the danger-level findings
of the parsed report: whenever the locator finds one path, the file is read,
line 120 strips its prefix and the parser yields `report`, `loadFindings`
returns `dangerFindingsOf report`, which is the report's findings in
visiting order with the others filtered out; so every element has level
`"danger"`, every finding occurs in it as often as it occurs in the report
when its level is `"danger"` and never otherwise, and its length is the
number of danger findings summed over the services.  Three services with one
`"danger"` and one `"info"` finding each give a list of length 3. -/
theorem C1_dangerFindings_exact :
    (∀ report : ScoutSuiteReport,
      dangerFindingsOf report = (allFindings report).filter (fun f => f.Level = "danger")
      ∧ (∀ f ∈ dangerFindingsOf report, f.Level = "danger")
      ∧ (∀ f : Finding, (dangerFindingsOf report).count f
            = if f.Level = "danger" then (allFindings report).count f else 0)
      ∧ (dangerFindingsOf report).length
            = (report.Services.map (fun service => dangerCount service.2)).sum)
    ∧ (dangerFindingsOf threeServices).length = 3
    ∧ (∀ (w : World) (out : List Event) (path : String) (content stripped : List Nat)
        (report : ScoutSuiteReport),
        walk w.fileMatch w.walkEntries [] = (out, .ok [path]) →
        w.readFile path = .ok content →
        stripPrefix content = .ok stripped →
        w.unmarshalReport stripped = .ok report →
        loadFindings w
          = (out ++ [Event.print ("report name: " ++ path ++ "\n"), Event.readFile path],
             .returned (dangerFindingsOf report)))
    ∧ loadFindings threeServicesWorld
        = ([Event.print "report name: scans/scoutsuite_results_aws-1.js\n",
            Event.readFile "scans/scoutsuite_results_aws-1.js"],
           .returned [sampleFinding "danger" "open port", sampleFinding "danger" "root key",
                      sampleFinding "danger" "public bucket"]) := by
  refine ⟨fun report => ⟨dangerFindingsOf_eq report, ?_, ?_, ?_⟩, ?_, ?_, ?_⟩
  · intro f hf
    rw [dangerFindingsOf_eq, List.mem_filter] at hf
    simpa using hf.2
  · intro f
    rw [dangerFindingsOf_eq]
    by_cases h : f.Level = "danger"
    · rw [if_pos h]
      exact List.count_filter (by simpa using h)
    · rw [if_neg h]
      exact List.count_eq_zero.mpr (fun hmem => h (by simpa using (List.mem_filter.mp hmem).2))
  · rw [dangerFindingsOf_eq]
    exact length_filter_allFindings report.Services
  · decide
  · intro w out path content stripped report hwalk hread hstrip hparse
    rw [loadFindings_of_strip w out path content stripped hwalk hread hstrip, hparse]
  · decide

/-- C2: `findReportFileName` decides by the number of paths the walk
collected: none gives the error "no files found" and the empty path; exactly
one gives no error and that path; two or more give the empty path and an
error whose message is the fixed text followed by all the paths in discovery
order, separated by ", ", so that every candidate path occurs in it. -/
theorem C2_findReportFileName_by_length (w : World) (out : List Event)
    (foundFiles : List String)
    (hwalk : walk w.fileMatch w.walkEntries [] = (out, .ok foundFiles)) :
    findReportFileName w
        = (out, .returned
            (match foundFiles with
             | [] => (some "no files found", "")
             | [p] => (none, p)
             | _ :: _ :: _ =>
               (some ("found too many files. Expected one: " ++ stringsJoin foundFiles ", "),
                "")))
    ∧ (stringsJoin foundFiles ", ").data
        = List.intercalate ", ".data (foundFiles.map String.data)
    ∧ ∀ c ∈ foundFiles,
        c.data <:+: ("found too many files. Expected one: " ++ stringsJoin foundFiles ", ").data := by
  refine ⟨?_, stringsJoin_data _ _, ?_⟩
  · rw [findReportFileName_of_walk w out foundFiles hwalk]
    cases foundFiles with
    | nil => rfl
    | cons p rest =>
      cases rest with
      | nil => rfl
      | cons q rest2 => simp [findReportFileNameOf]
  · intro c hc
    rw [String.data_append]
    exact (stringsJoin_contains _ _ c hc).trans (List.suffix_append _ _).isInfix

theorem C2_findReportFileName_by_length_witness :
    findReportFileName emptyDirWorld = ([], .returned (some "no files found", ""))
    ∧ findReportFileName (sampleWorld [])
        = ([], .returned (none, "scans/scoutsuite_results_aws-1.js"))
    ∧ findReportFileName twoReportsWorld
        = ([], .returned
            (some ("found too many files. Expected one: "
                ++ stringsJoin ["scans/a/scoutsuite_results_aws-1.js",
                                "scans/b/scoutsuite_results_aws-2.js"] ", "), ""))
    ∧ stringsJoin ["scans/a/scoutsuite_results_aws-1.js",
                   "scans/b/scoutsuite_results_aws-2.js"] ", "
        = "scans/a/scoutsuite_results_aws-1.js, scans/b/scoutsuite_results_aws-2.js" :=
  ⟨(C2_findReportFileName_by_length emptyDirWorld [] [] rfl).1,
   (C2_findReportFileName_by_length (sampleWorld []) []
      ["scans/scoutsuite_results_aws-1.js"] rfl).1,
   (C2_findReportFileName_by_length twoReportsWorld []
      ["scans/a/scoutsuite_results_aws-1.js", "scans/b/scoutsuite_results_aws-2.js"] rfl).1,
   by decide⟩

/-- C5: when the file `loadFindings` reads has a `{` byte, the bytes it
hands to the JSON parser are the suffix of the content that starts at its
first `{`: the content is `pre ++ '{' :: post` with no `{` in `pre`, line 120
yields `'{' :: post`, and what `loadFindings` does next is decided by the
parser's answer on exactly these bytes, whatever the parser is; content that
starts with `{` is passed unchanged. -/
theorem C5_stripPrefix_first_brace (w : World) (out : List Event) (path : String)
    (content : List Nat)
    (hwalk : walk w.fileMatch w.walkEntries [] = (out, .ok [path]))
    (hread : w.readFile path = .ok content)
    (h : openBrace ∈ content) :
    (∃ pre post, content = pre ++ openBrace :: post ∧ openBrace ∉ pre
      ∧ stripPrefix content = .ok (openBrace :: post)
      ∧ loadFindings w
          = (match w.unmarshalReport (openBrace :: post) with
             | .error err =>
               (out ++ [Event.print ("report name: " ++ path ++ "\n"), Event.readFile path,
                        Event.print "Error unmarshalling json\n"],
                .panicked (.err err))
             | .ok report =>
               (out ++ [Event.print ("report name: " ++ path ++ "\n"), Event.readFile path],
                .returned (dangerFindingsOf report)))
      ∧ ∀ unmarshalReport, loadFindingsFrom unmarshalReport content
          = (match unmarshalReport (openBrace :: post) with
             | .error err => ([Event.print "Error unmarshalling json\n"], .panicked (.err err))
             | .ok report => ([], .returned (dangerFindingsOf report))))
    ∧ (∀ post : List Nat, stripPrefix (openBrace :: post) = .ok (openBrace :: post))
    ∧ (∀ rest : List Nat, content = openBrace :: rest →
        loadFindings w
          = (match w.unmarshalReport content with
             | .error err =>
               (out ++ [Event.print ("report name: " ++ path ++ "\n"), Event.readFile path,
                        Event.print "Error unmarshalling json\n"],
                .panicked (.err err))
             | .ok report =>
               (out ++ [Event.print ("report name: " ++ path ++ "\n"), Event.readFile path],
                .returned (dangerFindingsOf report)))) := by
  refine ⟨?_, ?_, ?_⟩
  · obtain ⟨pre, post, hsplit, hpre⟩ := split_at_first content h
    have hstrip : stripPrefix content = .ok (openBrace :: post) := by
      rw [hsplit]; exact stripPrefix_first pre post hpre
    refine ⟨pre, post, hsplit, hpre, hstrip, ?_, ?_⟩
    · exact loadFindings_of_strip w out path content _ hwalk hread hstrip
    · intro u
      simp only [loadFindingsFrom, hstrip, parseAndFilter]
  · intro post
    exact stripPrefix_first [] post (by simp)
  · intro rest hrest
    have hstrip : stripPrefix content = .ok content := by
      rw [hrest]; exact stripPrefix_first [] rest (by simp)
    exact loadFindings_of_strip w out path content _ hwalk hread hstrip

theorem C5_stripPrefix_first_brace_witness :
    stripPrefix assignmentBytes = .ok [123, 125]
    ∧ loadFindings threeServicesWorld
        = (match threeServicesWorld.unmarshalReport [123, 125] with
           | .error err =>
             ([Event.print "report name: scans/scoutsuite_results_aws-1.js\n",
               Event.readFile "scans/scoutsuite_results_aws-1.js",
               Event.print "Error unmarshalling json\n"],
              .panicked (.err err))
           | .ok report =>
             ([Event.print "report name: scans/scoutsuite_results_aws-1.js\n",
               Event.readFile "scans/scoutsuite_results_aws-1.js"],
              .returned (dangerFindingsOf report))) := by
  obtain ⟨pre, post, hsplit, hpre, hstrip, hload, _⟩ :=
    (C5_stripPrefix_first_brace threeServicesWorld []
      "scans/scoutsuite_results_aws-1.js" assignmentBytes rfl rfl (by decide)).1
  have hknown : stripPrefix assignmentBytes = .ok [123, 125] := rfl
  have hpost : openBrace :: post = [123, 125] := by
    rw [hknown] at hstrip
    exact (Except.ok.inj hstrip).symm
  rw [hpost] at hload
  exact ⟨hknown, hload⟩

/-- C3: with at least one finding, after every key press of a sequence of `j`
and `k` keys applied from `currentIndex = 0` the loop is still running and
its index satisfies `0 <= currentIndex <= total - 1`, so that
`findings[currentIndex]` is in bounds. -/
theorem C3_index_in_bounds (w : World) (findings : List Finding) (keys : List KeyRead)
    (htotal : 1 ≤ findings.length) (hmax : (findings.length : Int) ≤ maxInt)
    (hkeys : ∀ key ∈ keys, key.err = none ∧ (key.char = 'j' ∨ key.char = 'k')) :
    ∀ n : Nat, ∃ currentIndex : Int,
      (mainLoop w findings findings.length (.running 0) (keys.take n)).2 = .running currentIndex
      ∧ 0 ≤ currentIndex ∧ currentIndex ≤ (findings.length : Int) - 1
      ∧ ∃ f, indexFinding findings currentIndex = .ok f := by
  intro n
  have htake : ∀ key ∈ keys.take n, key.err = none ∧ (key.char = 'j' ∨ key.char = 'k') :=
    fun k hk => hkeys k (List.mem_of_mem_take hk)
  obtain ⟨idx, hidx, hlo, hhi⟩ :=
    mainLoop_jk w findings htotal hmax (keys.take n) htake 0 (le_refl 0) (by omega)
  obtain ⟨f, hf, _⟩ := indexFinding_ok findings idx hlo (by omega)
  exact ⟨idx, hidx, hlo, hhi, f, hf⟩

theorem C3_index_in_bounds_witness :
    ∃ currentIndex : Int,
      (mainLoop (sampleWorld assignmentBytes) sampleFindings sampleFindings.length (.running 0)
          (([⟨'j', none⟩, ⟨'j', none⟩, ⟨'j', none⟩, ⟨'k', none⟩] : List KeyRead).take 3)).2
        = .running currentIndex
      ∧ 0 ≤ currentIndex ∧ currentIndex ≤ (sampleFindings.length : Int) - 1
      ∧ ∃ f, indexFinding sampleFindings currentIndex = .ok f :=
  C3_index_in_bounds (sampleWorld assignmentBytes) sampleFindings
    [⟨'j', none⟩, ⟨'j', none⟩, ⟨'j', none⟩, ⟨'k', none⟩] (by decide) (by decide) (by decide) 3

/-- C4: with `0 <= i <= total - 1` (which makes `total >= 1`), one key press
moves the index as the dispatch table says: `j` gives `min (i+1) (total-1)`,
`k` gives `max (i-1) 0`, `p` and `d` leave `i` (the finding is serialised
first; `json.MarshalIndent` is assumed to succeed on the findings), and every
key other than `j`, `k`, `p`, `d`, `q` leaves `i` and prints nothing.  `j` at
`total - 1` and `k` at `0` leave the index unchanged. -/
theorem C4_dispatch_table (w : World) (findings : List Finding) (i : Int)
    (hmax : (findings.length : Int) ≤ maxInt)
    (hlo : 0 ≤ i) (hhi : i ≤ (findings.length : Int) - 1) :
    (step w findings findings.length i ⟨'j', none⟩).2
        = .running (min (i + 1) ((findings.length : Int) - 1))
    ∧ (step w findings findings.length i ⟨'k', none⟩).2 = .running (max (i - 1) 0)
    ∧ ((∀ f ∈ findings, ∃ text, w.marshalIndent f = .ok text) →
        (step w findings findings.length i ⟨'p', none⟩).2 = .running i
        ∧ (step w findings findings.length i ⟨'d', none⟩).2 = .running i)
    ∧ (∀ c : Char, c ≠ 'j' → c ≠ 'k' → c ≠ 'p' → c ≠ 'd' → c ≠ 'q' →
        step w findings findings.length i ⟨c, none⟩ = ([], .running i))
    ∧ (step w findings findings.length ((findings.length : Int) - 1) ⟨'j', none⟩).2
        = .running ((findings.length : Int) - 1)
    ∧ (step w findings findings.length 0 ⟨'k', none⟩).2 = .running 0 := by
  have hj := step_j w findings i hmax hlo hhi
  have hk := step_k w findings i hmax hlo hhi
  refine ⟨hj, hk, fun hm => ⟨step_p w findings i hlo hhi hm, step_d w findings i hlo hhi hm⟩,
    fun c h1 h2 h3 h4 h5 => step_other w findings _ i c h1 h2 h3 h4 h5, ?_, ?_⟩
  · rw [step_j w findings _ hmax (by omega) (le_refl _)]
    congr 1; omega
  · rw [step_k w findings 0 hmax (le_refl 0) (by omega)]
    rfl

theorem C4_dispatch_table_witness :
    (step (sampleWorld assignmentBytes) sampleFindings sampleFindings.length 2 ⟨'j', none⟩).2
        = .running (min (2 + 1) ((sampleFindings.length : Int) - 1))
    ∧ (step (sampleWorld assignmentBytes) sampleFindings sampleFindings.length 2 ⟨'k', none⟩).2
        = .running (max (2 - 1) 0)
    ∧ ((∀ f ∈ sampleFindings, ∃ text, (sampleWorld assignmentBytes).marshalIndent f = .ok text) →
        (step (sampleWorld assignmentBytes) sampleFindings sampleFindings.length 2 ⟨'p', none⟩).2
          = .running 2
        ∧ (step (sampleWorld assignmentBytes) sampleFindings sampleFindings.length 2 ⟨'d', none⟩).2
          = .running 2)
    ∧ (∀ c : Char, c ≠ 'j' → c ≠ 'k' → c ≠ 'p' → c ≠ 'd' → c ≠ 'q' →
        step (sampleWorld assignmentBytes) sampleFindings sampleFindings.length 2 ⟨c, none⟩
          = ([], .running 2))
    ∧ (step (sampleWorld assignmentBytes) sampleFindings sampleFindings.length
          ((sampleFindings.length : Int) - 1) ⟨'j', none⟩).2
        = .running ((sampleFindings.length : Int) - 1)
    ∧ (step (sampleWorld assignmentBytes) sampleFindings sampleFindings.length 0 ⟨'k', none⟩).2
        = .running 0 :=
  C4_dispatch_table (sampleWorld assignmentBytes) sampleFindings 2
    (by decide) (by decide) (by decide)

/-- C6: when the POST succeeds and its body parses to `response`,
`askQuestion` prints, between its four opening and six closing lines, one
answer line: `"Answer: "` followed by the text of the first choice without
its leading and trailing white space when there is a choice (the later
choices play no part), and `"No answer found"` when there is none.  The
trimmed text is the original one between two runs of white space, and it
neither starts nor ends with white space. -/
theorem C6_answer_line (w : World) (question : String) (body : List Nat) (response : Response)
    (hpost : w.post w.apiKey question = .ok body)
    (hparse : w.unmarshalResponse body = .ok response) :
    askQuestion w question
        = List.replicate 4 (Event.print "Asking now!\n") ++ [Event.post question]
          ++ [Event.print (answerLine response ++ "\n")]
          ++ List.replicate 6 (Event.print "End of question\n")
    ∧ (∀ (first : Choice) (rest : List Choice), response.Choices = first :: rest →
        answerLine response = "Answer: " ++ trimSpace first.Text
        ∧ (∃ pre post, first.Text.data = pre ++ (trimSpace first.Text).data ++ post
            ∧ (∀ c ∈ pre, isSpace c = true) ∧ (∀ c ∈ post, isSpace c = true))
        ∧ (∀ c, (trimSpace first.Text).data.head? = some c → isSpace c = false)
        ∧ (∀ c, (trimSpace first.Text).data.getLast? = some c → isSpace c = false))
    ∧ (response.Choices = [] → answerLine response = "No answer found") := by
  refine ⟨?_, ?_, ?_⟩
  · simp [askQuestion, hpost, hparse]
  · intro first rest hchoices
    refine ⟨?_, trimSpace_split first.Text, trimSpace_head first.Text, trimSpace_last first.Text⟩
    simp only [answerLine, hchoices, List.length_cons, List.headD_cons]
    rw [if_pos (by omega)]
    rfl
  · intro hchoices
    simp [answerLine, hchoices]

theorem C6_answer_line_witness :
    answerLine { Choices := [{ Text := " Do X.\n" }] } = "Answer: Do X."
    ∧ askQuestion (sampleWorld assignmentBytes) "q"
        = List.replicate 4 (Event.print "Asking now!\n") ++ [Event.post "q"]
          ++ [Event.print (answerLine { Choices := [{ Text := " Do X.\n" }] } ++ "\n")]
          ++ List.replicate 6 (Event.print "End of question\n") :=
  ⟨by decide,
   (C6_answer_line (sampleWorld assignmentBytes) "q" [] { Choices := [{ Text := " Do X.\n" }] }
      rfl rfl).1⟩

/-- C8 (what the code does): a file without any `{` byte, the empty file
first of all, never reaches `json.Unmarshal`: `bytes.Index` returns -1 and
the slice expression of line 120 panics with "slice bounds out of range",
whatever the parser would answer, and "Error unmarshalling json" is not
printed.  Content with a `{` that the parser rejects does take the parse
failure path. -/
theorem C8_no_brace_slice_panic :
    (∀ unmarshalReport,
      loadFindingsFrom unmarshalReport [] = ([], .panicked (.sliceBounds (-1) 0)))
    ∧ loadFindings (sampleWorld [])
        = ([Event.print "report name: scans/scoutsuite_results_aws-1.js\n",
            Event.readFile "scans/scoutsuite_results_aws-1.js"],
           .panicked (.sliceBounds (-1) 0))
    ∧ (∀ unmarshalReport content, openBrace ∉ content →
        loadFindingsFrom unmarshalReport content
          = ([], .panicked (.sliceBounds (-1) content.length)))
    ∧ (∀ unmarshalReport pre post err, openBrace ∉ pre →
        unmarshalReport (openBrace :: post) = .error err →
        loadFindingsFrom unmarshalReport (pre ++ openBrace :: post)
          = ([Event.print "Error unmarshalling json\n"], .panicked (.err err))) := by
  refine ⟨fun u => rfl, by decide, ?_, ?_⟩
  · intro u content h
    simp [loadFindingsFrom, stripPrefix_absent content h]
  · intro u pre post err hpre herr
    simp [loadFindingsFrom, stripPrefix_first pre post hpre, parseAndFilter, herr]

/-- C9 (what the code does): when the locator fails, `loadFindings` only
prints the locator's error and goes on: it prints the report name (empty),
calls `ioutil.ReadFile("")`, and the panic that ends the program carries the
error of that read, not the locator's.  This is so whenever the walk does
not collect exactly one path. -/
theorem C9_locator_error_not_fatal :
    findReportFileName emptyDirWorld = ([], .returned (some "no files found", ""))
    ∧ loadFindings emptyDirWorld
        = ([Event.print "no files found", Event.print "report name: \n", Event.readFile ""],
           .panicked (.err "open : no such file or directory"))
    ∧ (∀ (w : World) (out : List Event) (foundFiles : List String),
        walk w.fileMatch w.walkEntries [] = (out, .ok foundFiles) → foundFiles.length ≠ 1 →
        ∃ message, findReportFileNameOf foundFiles = (some message, "")
          ∧ Event.readFile "" ∈ (loadFindings w).1
          ∧ ∀ e, w.readFile "" = .error e → (loadFindings w).2 = .panicked (.err e)) := by
  refine ⟨by decide, by decide, ?_⟩
  intro w out foundFiles hwalk hlen
  have hloc : ∃ message, findReportFileNameOf foundFiles = (some message, "") := by
    unfold findReportFileNameOf
    by_cases h0 : foundFiles.length = 0
    · exact ⟨_, by rw [if_pos h0]⟩
    · have h1 : foundFiles.length > 1 := by omega
      exact ⟨_, by rw [if_neg h0, if_pos h1]⟩
  obtain ⟨message, hmsg⟩ := hloc
  refine ⟨message, hmsg, ?_, ?_⟩
  · simp only [loadFindings, findReportFileName, hwalk, hmsg]
    cases w.readFile "" <;> simp
  · intro e he
    simp only [loadFindings, findReportFileName, hwalk, hmsg, he]

/-- C10 (counterexample): a failed key read, which is not the key `q`, ends
the program: the loop panics with the read's error. -/
theorem C10_read_error_ends_program :
    (⟨Char.ofNat 0, some "EOF"⟩ : KeyRead).char ≠ 'q'
    ∧ (step (sampleWorld assignmentBytes) sampleFindings sampleFindings.length 0
          ⟨Char.ofNat 0, some "EOF"⟩).2 = .panicked (.err "EOF") := by
  constructor <;> decide

/-- C10 (amended): from a state with `0 <= currentIndex <= total - 1` (the
initial state `currentIndex = 0` with `total >= 1` is one, and every step that
keeps running leads to one), and with `json.MarshalIndent` succeeding on the
findings, the loop leaves the running state exactly when the key read fails
or the key is `q`: `q` returns from `main` at once, printing nothing; a
failed read panics with the read's error, printing nothing; every other key
keeps the loop running. -/
theorem C10_exit_on_q_or_read_error (w : World) (findings : List Finding) (i : Int) (key : KeyRead)
    (hmax : (findings.length : Int) ≤ maxInt)
    (hlo : 0 ≤ i) (hhi : i ≤ (findings.length : Int) - 1)
    (hmarshal : ∀ f ∈ findings, ∃ text, w.marshalIndent f = .ok text) :
    ((∃ i2 : Int, (step w findings findings.length i key).2 = .running i2
          ∧ 0 ≤ i2 ∧ i2 ≤ (findings.length : Int) - 1)
        ↔ (key.err = none ∧ key.char ≠ 'q'))
    ∧ (key.err = none → key.char = 'q' →
        step w findings findings.length i key = ([], .exited))
    ∧ (∀ e, key.err = some e →
        step w findings findings.length i key = ([], .panicked (.err e))) := by
  obtain ⟨c, err⟩ := key
  cases err with
  | some e =>
    refine ⟨⟨?_, ?_⟩, ?_, ?_⟩
    · rintro ⟨i2, h, _⟩
      rw [step_err] at h
      cases h
    · rintro ⟨h, _⟩
      cases h
    · intro h; cases h
    · intro e2 h
      simp only [Option.some.injEq] at h
      subst h
      exact step_err w findings _ i c e
  | none =>
    refine ⟨⟨?_, ?_⟩, ?_, ?_⟩
    · rintro ⟨i2, h, _⟩
      refine ⟨rfl, ?_⟩
      intro hq
      simp only at hq
      subst hq
      rw [step_q] at h
      cases h
    · rintro ⟨_, hq⟩
      simp only at hq
      by_cases hj : c = 'j'
      · subst hj
        exact ⟨_, step_j w findings i hmax hlo hhi, by omega, by omega⟩
      by_cases hk : c = 'k'
      · subst hk
        exact ⟨_, step_k w findings i hmax hlo hhi, by omega, by omega⟩
      by_cases hp : c = 'p'
      · subst hp
        exact ⟨_, step_p w findings i hlo hhi hmarshal, hlo, hhi⟩
      by_cases hd : c = 'd'
      · subst hd
        exact ⟨_, step_d w findings i hlo hhi hmarshal, hlo, hhi⟩
      exact ⟨i, by rw [step_other w findings _ i c hj hk hp hd hq], hlo, hhi⟩
    · intro _ hq
      simp only at hq
      subst hq
      exact step_q w findings _ i
    · intro e h; cases h

theorem C10_exit_on_q_or_read_error_witness :
    ((∃ i2 : Int, (step (sampleWorld assignmentBytes) sampleFindings sampleFindings.length 0
            ⟨'q', none⟩).2 = .running i2 ∧ 0 ≤ i2 ∧ i2 ≤ (sampleFindings.length : Int) - 1)
        ↔ ((⟨'q', none⟩ : KeyRead).err = none ∧ (⟨'q', none⟩ : KeyRead).char ≠ 'q'))
    ∧ ((⟨'q', none⟩ : KeyRead).err = none → (⟨'q', none⟩ : KeyRead).char = 'q' →
        step (sampleWorld assignmentBytes) sampleFindings sampleFindings.length 0 ⟨'q', none⟩
          = ([], .exited))
    ∧ (∀ e, (⟨'q', none⟩ : KeyRead).err = some e →
        step (sampleWorld assignmentBytes) sampleFindings sampleFindings.length 0 ⟨'q', none⟩
          = ([], .panicked (.err e))) :=
  C10_exit_on_q_or_read_error (sampleWorld assignmentBytes) sampleFindings 0 ⟨'q', none⟩
    (by decide) (by decide) (by decide) (fun f _ => ⟨String.mk (goMarshalIndent true f), rfl⟩)

/-- C7: for every `Finding` of the loaded list (strings of valid UTF-8,
integers of 64 bits, a compliance pointer that is nil or points to a list,
item and reference slices that are nil, empty or not), the text
`printFindingAsString` returns, which is `json.MarshalIndent(f, "", "   ")`,
decodes with `json.Unmarshal` into a fresh `Finding` that equals `f` in all
thirteen fields; this holds for both ways Go versions escape backspace and
form feed. -/
theorem C7_print_roundtrip (w : World) (shortEscapes : Bool) (f : Finding)
    (hw : w.marshalIndent f = .ok (String.mk (goMarshalIndent shortEscapes f)))
    (hc : -9223372036854775808 ≤ f.CheckedItems ∧ f.CheckedItems ≤ 9223372036854775807)
    (hf : -9223372036854775808 ≤ f.FlaggedItems ∧ f.FlaggedItems ≤ 9223372036854775807) :
    ∃ text : String, printFindingAsString w f = ([], .returned text)
      ∧ text.data = goMarshalIndent shortEscapes f
      ∧ goUnmarshalFinding text.data = .ok f := by
  refine ⟨String.mk (goMarshalIndent shortEscapes f), ?_, rfl, ?_⟩
  · simp only [printFindingAsString, hw]
  · have hn : nesting (findingToJSON f) ≤ maxNestingDepth := by
      have := nesting_finding f
      simp only [maxNestingDepth]; omega
    have hparse := parseJSON_render shortEscapes (findingToJSON f) (printable_finding f) hn
    simp only [goUnmarshalFinding, goMarshalIndent, hparse]
    exact decodeFinding_finding f hc hf

theorem C7_print_roundtrip_witness :
    ∃ text : String, printFindingAsString (sampleWorld assignmentBytes) richFinding = ([], .returned text)
      ∧ text.data = goMarshalIndent true richFinding
      ∧ goUnmarshalFinding text.data = .ok richFinding :=
  C7_print_roundtrip (sampleWorld assignmentBytes) true richFinding rfl (by decide) (by decide)

end SsCloudBadge
